import Mathlib

/-!
# user-model-metrics-webhook: the request path of `server.go`

A shallow embedding of `server.go` (package `main`): the authorization check
`authRequestHandle`, the ingestion handler `userModelMetricHandle`, the parser
`parseUserModelMetrics` and the writer `saveUserModelMetrics`, together with the
parts of the Go standard library they call (`strings`, `unicode/utf8`, `time`,
`path`, `encoding/json`, `net/http`'s response writer).

Conventions.
* A Go `string` / `[]byte` is a list of bytes (`GoString`).
* Go `int`, `int64` and `uint64` values are `Int` / `Nat`; where Go's arithmetic
  wraps, the wrap is written out (`% 2 ^ 64`).
* The operating system (clock, file system) is an explicit environment value.
-/

namespace Webhook

/-! ## Go strings -/

/-- A Go `string` (or `[]byte`): a sequence of bytes. -/
abbrev GoString := List UInt8

/-- The bytes of an ASCII string literal of the source. -/
def ascii (s : String) : GoString := s.data.map (fun c => UInt8.ofNat c.toNat)

/-! ### `unicode/utf8` -/

/-- Go `utf8.RuneError`, U+FFFD. -/
def RuneError : Nat := 65533

/-- A continuation byte in the range `lo ..= hi`. -/
def inRange (lo hi : Nat) (b : UInt8) : Bool := decide (lo ≤ b.toNat) && decide (b.toNat ≤ hi)

/-- Go `utf8.DecodeRuneInString` (also the step of `for _, r := range s`): the
first rune of `s` and its width in bytes; an invalid or short encoding yields
`(RuneError, 1)`, the empty string `(RuneError, 0)`. The `first` /
`acceptRanges` tables of the package are written as the case analysis on the
lead byte they encode. -/
def DecodeRuneInString (s : GoString) : Nat × Nat :=
  match s with
  | [] => (RuneError, 0)
  | s0 :: rest =>
    let b0 := s0.toNat
    if b0 < 128 then (b0, 1)
    else if b0 < 194 then (RuneError, 1)
    else if b0 < 224 then
      match rest with
      | s1 :: _ =>
        if inRange 128 191 s1 then ((b0 % 32) * 64 + s1.toNat % 64, 2) else (RuneError, 1)
      | _ => (RuneError, 1)
    else if b0 < 240 then
      let lo := if b0 = 224 then 160 else 128
      let hi := if b0 = 237 then 159 else 191
      match rest with
      | s1 :: s2 :: _ =>
        if !inRange lo hi s1 then (RuneError, 1)
        else if !inRange 128 191 s2 then (RuneError, 1)
        else ((b0 % 16) * 4096 + (s1.toNat % 64) * 64 + s2.toNat % 64, 3)
      | _ => (RuneError, 1)
    else if b0 < 245 then
      let lo := if b0 = 240 then 144 else 128
      let hi := if b0 = 244 then 143 else 191
      match rest with
      | s1 :: s2 :: s3 :: _ =>
        if !inRange lo hi s1 then (RuneError, 1)
        else if !inRange 128 191 s2 then (RuneError, 1)
        else if !inRange 128 191 s3 then (RuneError, 1)
        else ((b0 % 8) * 262144 + (s1.toNat % 64) * 4096 + (s2.toNat % 64) * 64
                + s3.toNat % 64, 4)
      | _ => (RuneError, 1)
    else (RuneError, 1)

/-- Go `utf8.AppendRune` on an empty buffer: the UTF-8 encoding of `r`;
surrogates and values above `utf8.MaxRune` are encoded as `RuneError`. -/
def EncodeRune (r : Nat) : GoString :=
  if r ≤ 127 then [UInt8.ofNat r]
  else if r ≤ 2047 then [UInt8.ofNat (192 + r / 64), UInt8.ofNat (128 + r % 64)]
  else if r > 1114111 ∨ (55296 ≤ r ∧ r ≤ 57343) then [239, 191, 189]
  else if r ≤ 65535 then
    [UInt8.ofNat (224 + r / 4096), UInt8.ofNat (128 + (r / 64) % 64), UInt8.ofNat (128 + r % 64)]
  else
    [UInt8.ofNat (240 + r / 262144), UInt8.ofNat (128 + (r / 4096) % 64),
     UInt8.ofNat (128 + (r / 64) % 64), UInt8.ofNat (128 + r % 64)]

/-- Go `utf8.RuneStart`: the byte is not a continuation byte. -/
def RuneStart (b : UInt8) : Bool := b.toNat / 64 != 2

/-- The backward loop of `utf8.DecodeLastRuneInString`
(`for start--; start >= lim; start-- { if RuneStart(s[start]) { break } }`):
the value of `start` when the loop ends. The loop body runs at most three
times (`UTFMax - 1`), so four steps always reach the exit test. -/
def lastRuneStart (s : GoString) (lim : Int) : Nat → Int → Int
  | 0, start => start
  | steps + 1, start =>
    if start < lim then start
    else if RuneStart (s.getD start.toNat 0) then start
    else lastRuneStart s lim steps (start - 1)

/-- Go `utf8.DecodeLastRuneInString`: the last rune of `s` and its width. -/
def DecodeLastRuneInString (s : GoString) : Nat × Nat :=
  let n := s.length
  if n = 0 then (RuneError, 0)
  else
    let r := (s.getD (n - 1) 0).toNat
    if r < 128 then (r, 1)
    else
      let lim : Int := if (n : Int) - 4 < 0 then 0 else (n : Int) - 4
      let start := lastRuneStart s lim 4 ((n : Int) - 2)
      let start : Nat := if start < 0 then 0 else start.toNat
      let (r, size) := DecodeRuneInString (s.drop start)
      if start + size ≠ n then (RuneError, 1) else (r, size)

/-! ### `unicode` -/

/-- Go `unicode.ToLower`. ASCII runes are handled in the function itself; for
the other runes Go consults the Unicode case tables (`unicode.To(LowerCase, r)`),
which are not part of this development and are taken as the parameter
`lowerTab`. -/
def unicodeToLower (lowerTab : Nat → Nat) (r : Nat) : Nat :=
  if r ≤ 127 then (if 65 ≤ r ∧ r ≤ 90 then r + 32 else r) else lowerTab r

/-- Go `unicode.IsSpace`: the Latin-1 spaces and the `White_Space` property
outside Latin-1. -/
def IsSpace (r : Nat) : Bool :=
  if r ≤ 255 then
    r = 9 || r = 10 || r = 11 || r = 12 || r = 13 || r = 32 || r = 133 || r = 160
  else
    r = 5760 || (decide (8192 ≤ r) && decide (r ≤ 8202)) || r = 8232 || r = 8233
      || r = 8239 || r = 8287 || r = 12288

/-! ### `strings` -/

/-- Go `strings.Map` for a mapping that never returns a negative rune: every
rune of `s` (an invalid byte counts as `RuneError`) is replaced by the encoding
of its image. The first argument bounds the number of runes. -/
def Map (mapping : Nat → Nat) : Nat → GoString → GoString
  | 0, _ => []
  | fuel + 1, s =>
    match s with
    | [] => []
    | _ :: _ =>
      let (r, size) := DecodeRuneInString s
      EncodeRune (mapping r) ++ Map mapping fuel (s.drop size)

/-- Go `strings.ToLower`: byte-wise on an all-ASCII string, otherwise
`Map(unicode.ToLower, s)`. -/
def ToLower (lowerTab : Nat → Nat) (s : GoString) : GoString :=
  if s.all (fun c => decide (c.toNat < 128)) then
    s.map (fun c => if 65 ≤ c.toNat ∧ c.toNat ≤ 90 then UInt8.ofNat (c.toNat + 32) else c)
  else Map (unicodeToLower lowerTab) s.length s

/-- The `asciiSpace` table of package `strings`. -/
def asciiSpace (c : UInt8) : Bool :=
  c = 9 || c = 10 || c = 11 || c = 12 || c = 13 || c = 32

/-- Go `strings.indexFunc`: the byte index (counted from `i`) of the first rune
of `s` on which `f` returns `truth`, or -1. -/
def indexFunc (f : Nat → Bool) (truth : Bool) : Nat → GoString → Nat → Int
  | 0, _, _ => -1
  | fuel + 1, s, i =>
    match s with
    | [] => -1
    | _ :: _ =>
      let (r, size) := DecodeRuneInString s
      if f r == truth then (i : Int) else indexFunc f truth fuel (s.drop size) (i + size)

/-- Go `strings.lastIndexFunc`: the byte index of the last rune of `s` on which
`f` returns `truth`, or -1. -/
def lastIndexFunc (f : Nat → Bool) (truth : Bool) : Nat → GoString → Int
  | 0, _ => -1
  | fuel + 1, s =>
    if s.length = 0 then -1
    else
      let (r, size) := DecodeLastRuneInString s
      let i := s.length - size
      if f r == truth then (i : Int) else lastIndexFunc f truth fuel (s.take i)

/-- Go `strings.TrimLeftFunc`. -/
def TrimLeftFunc (s : GoString) (f : Nat → Bool) : GoString :=
  let i := indexFunc f false s.length s 0
  if i = -1 then [] else s.drop i.toNat

/-- Go `strings.TrimRightFunc`. -/
def TrimRightFunc (s : GoString) (f : Nat → Bool) : GoString :=
  let i := lastIndexFunc f false s.length s
  let j : Int :=
    if 0 ≤ i ∧ 128 ≤ (s.getD i.toNat 0).toNat then
      i + ((DecodeRuneInString (s.drop i.toNat)).2 : Int)
    else i + 1
  s.take j.toNat

/-- Go `strings.TrimFunc`. -/
def TrimFunc (s : GoString) (f : Nat → Bool) : GoString :=
  TrimRightFunc (TrimLeftFunc s f) f

/-- The second loop of `strings.TrimSpace`, on the reversed string: strip
ASCII spaces from the end, handing over to `TrimRightFunc` at the first
non-ASCII byte. -/
def trimSpaceEnd : GoString → GoString
  | [] => []
  | c :: rev =>
    if 128 ≤ c.toNat then TrimRightFunc (c :: rev).reverse IsSpace
    else if asciiSpace c then trimSpaceEnd rev
    else (c :: rev).reverse

/-- Go `strings.TrimSpace`: the ASCII fast path from both ends, falling back
to `TrimFunc(·, unicode.IsSpace)` on the first non-ASCII byte met. -/
def TrimSpace : GoString → GoString
  | [] => []
  | c :: rest =>
    if 128 ≤ c.toNat then TrimFunc (c :: rest) IsSpace
    else if asciiSpace c then TrimSpace rest
    else trimSpaceEnd (c :: rest).reverse

/-- The step `m := Index(s, sep); a[i] = s[:m]; s = s[m+len(sep):]` of
`strings.genSplit` for a one-byte separator: the text before the first `sep`
and the text after it, or `none` when `s` holds no `sep`. -/
def cutAtFirst (sep : UInt8) : GoString → Option (GoString × GoString)
  | [] => none
  | c :: cs =>
    if c = sep then some ([], cs)
    else match cutAtFirst sep cs with
      | none => none
      | some (a, b) => some (c :: a, b)

/-- Go `strings.SplitN(s, " ", 2)`: `[s]` when `s` holds no space (also for
the empty string, where Go lowers `n` to `len(s)+1 = 1`), otherwise the text
before the first space and the text after it. -/
def SplitN2 (s : GoString) : List GoString :=
  match cutAtFirst 32 s with
  | some (before, after) => [before, after]
  | none => [s]

/-! ## `net/http`: the response writer -/

/-- The observable state of an `http.ResponseWriter`: the status code once the
header has been written (`none` before that) and the body bytes written. -/
structure ResponseWriter where
  status : Option Nat
  body : GoString
deriving DecidableEq, Repr

/-- A response to which nothing has been written. -/
def ResponseWriter.fresh : ResponseWriter := ⟨none, []⟩

/-- Go `ResponseWriter.WriteHeader`: the first call fixes the status code. -/
def ResponseWriter.WriteHeader (w : ResponseWriter) (statusCode : Nat) : ResponseWriter :=
  match w.status with
  | some _ => w
  | none => { w with status := some statusCode }

/-- Go `fmt.Fprintln(w, line)`: writes `line` and a newline; a write before
`WriteHeader` sends the header with status 200 first. -/
def Fprintln (w : ResponseWriter) (line : GoString) : ResponseWriter :=
  let w1 := w.WriteHeader 200
  { w1 with body := w1.body ++ line ++ [10] }

/-- The status the client receives when the handler returns: the status
written, or 200 when the handler wrote nothing. -/
def ResponseWriter.finalStatus (w : ResponseWriter) : Nat := w.status.getD 200

/-- Go `http.StatusUnauthorized`. -/
def StatusUnauthorized : Nat := 401

/-- Go `http.StatusBadRequest`. -/
def StatusBadRequest : Nat := 400

/-! ## `server.go`: the server and its authorization check -/

/-- The fields of `Server` the request path reads. -/
structure Server where
  apiKey : GoString
  dataPath : GoString
deriving DecidableEq, Repr

/-- Go `Server.requireApiKeyAuthorization`. -/
def Server.requireApiKeyAuthorization (s : Server) : Bool := decide (s.apiKey.length > 0)

/-- Go `Server.isValidAPIKey`. -/
def Server.isValidAPIKey (s : Server) (apiKey : GoString) : Bool :=
  decide (s.apiKey = TrimSpace apiKey)

/-- Go `Server.authRequestHandle`; `authHeader` is the value of
`r.Header.Get("Authorization")` (empty when the header is absent). Returns the
response writer after the call and the verdict. -/
def Server.authRequestHandle (lowerTab : Nat → Nat) (s : Server) (w : ResponseWriter)
    (authHeader : GoString) : ResponseWriter × Bool :=
  if s.requireApiKeyAuthorization then
    if authHeader = [] then
      (Fprintln (w.WriteHeader StatusUnauthorized)
        (ascii "Unauthorized: Missing Authorization header"), false)
    else
      let parts := SplitN2 authHeader
      if parts.length ≠ 2 ∨ ToLower lowerTab (parts.getD 0 []) ≠ ascii "bearer" then
        (Fprintln (w.WriteHeader StatusUnauthorized)
          (ascii "Unauthorized: Invalid Authorization header format"), false)
      else
        let apiKey := parts.getD 1 []
        if !s.isValidAPIKey apiKey then
          (Fprintln (w.WriteHeader StatusUnauthorized)
            (ascii "Unauthorized: Invalid API key"), false)
        else (w, true)
  else (w, true)

/-- A Go `time.Time` as the request path observes it: the Unix second count
(an `int64`), the nanosecond within the second, and the offset (seconds east
of UTC) that the value's `Location` reports for that instant. -/
structure Time where
  sec : Int
  nsec : Nat
  offset : Int
deriving DecidableEq, Repr

/-- The values a `time.Time` takes here: the second count is an `int64`, the
nanosecond lies within one second, and the zone offset is a whole number of
minutes (as for every zone of the time zone database in current use). -/
def Time.wellFormed (t : Time) : Prop :=
  -9223372036854775808 ≤ t.sec ∧ t.sec < 9223372036854775808 ∧ t.nsec < 1000000000 ∧
    t.offset % 60 = 0

instance (t : Time) : Decidable t.wellFormed := by
  unfold Time.wellFormed; infer_instance

/-- Go `absoluteZeroYear`: the year of the absolute epoch. -/
def absoluteZeroYear : Int := -292277022399

/-- Go `Time.abs`: seconds since the absolute epoch in the value's zone,
`uint64(sec + offset + (unixToInternal + internalToAbsolute))`; the `int64`
addition and the conversion wrap modulo `2 ^ 64`. -/
def Time.abs (t : Time) : Nat :=
  ((t.sec + t.offset + 9223372028715321600) % 18446744073709551616).toNat

/-- Go `isLeap`. (Go's `%` truncates, which agrees with `%` here on the
tests `== 0` and `!= 0`.) -/
def isLeap (year : Int) : Bool :=
  decide (year % 4 = 0) && (decide (year % 100 ≠ 0) || decide (year % 400 = 0))

/-- Go `daysBefore`: the days of a non-leap year before each month starts. -/
def daysBefore : List Nat := [0, 31, 59, 90, 120, 151, 181, 212, 243, 273, 304, 334, 365]

/-- Go `absDate`: year, month (1..12), day of month and day of year (from 0) of
an absolute second count; with `full = false` only year and day of year are
computed. -/
def absDate (abs : Nat) (full : Bool) : Int × Nat × Nat × Nat :=
  -- Split into time and day.
  let d := abs / 86400
  -- Account for 400 year cycles.
  let n := d / 146097
  let y := 400 * n
  let d := d - 146097 * n
  -- Cut off 100-year cycles.
  let n := d / 36524
  let n := n - n / 4
  let y := y + 100 * n
  let d := d - 36524 * n
  -- Cut off 4-year cycles.
  let n := d / 1461
  let y := y + 4 * n
  let d := d - 1461 * n
  -- Cut off years within a 4-year cycle.
  let n := d / 365
  let n := n - n / 4
  let y := y + n
  let d := d - 365 * n
  let year : Int := (y : Int) + absoluteZeroYear
  let yday := d
  if !full then (year, 0, 0, yday)
  else if isLeap year && decide (yday = 31 + 29 - 1) then (year, 2, 29, yday)
  else
    let day := if isLeap year && decide (yday > 31 + 29 - 1) then yday - 1 else yday
    -- Estimate month on assumption that every month has 31 days.
    let month := day / 31
    let monthEnd := daysBefore.getD (month + 1) 0
    let month1 := if day ≥ monthEnd then month + 1 else month
    let monthBegin := if day ≥ monthEnd then monthEnd else daysBefore.getD month 0
    (year, month1 + 1, day - monthBegin + 1, yday)

/-- Go `absWeekday`: Sunday = 0, ..., Saturday = 6. -/
def absWeekday (abs : Nat) : Nat :=
  (((abs + 1 * 86400) % 18446744073709551616) % 604800) / 86400

/-- Go `absClock`: hour, minute and second of the day. -/
def absClock (abs : Nat) : Nat × Nat × Nat :=
  let sec := abs % 86400
  let hour := sec / 3600
  let sec := sec - hour * 3600
  let min := sec / 60
  let sec := sec - min * 60
  (hour, min, sec)

/-- Go `Time.ISOWeek`: the ISO 8601 year and week number, found as the year
and week of the Thursday of the value's week. The step `abs += uint64(d) *
secondsPerDay` is unsigned arithmetic modulo `2 ^ 64`. -/
def Time.ISOWeek (t : Time) : Int × Nat :=
  let abs := t.abs
  let d : Int := 4 - (absWeekday abs : Int)
  -- handle Sunday
  let d : Int := if d = 4 then -3 else d
  -- find the Thursday of the calendar week
  let abs := (abs + (d % 18446744073709551616).toNat * 86400) % 18446744073709551616
  let r := absDate abs false
  (r.1, r.2.2.2 / 7 + 1)

/-- The decimal digits of `n`, least significant first (none for 0). The
first argument bounds the number of digits. -/
def digitsRev : Nat → Nat → GoString
  | 0, _ => []
  | fuel + 1, n => if n = 0 then [] else UInt8.ofNat (48 + n % 10) :: digitsRev fuel (n / 10)

/-- The decimal digits of `n`, most significant first; `0` is `"0"`. -/
def decimal (n : Nat) : GoString :=
  if n = 0 then [48] else (digitsRev n n).reverse

/-- Go `appendInt` of package `time`: a minus sign for a negative value, then
the decimal digits of the magnitude, zero-padded to `width`. -/
def appendInt (x : Int) (width : Nat) : GoString :=
  (if x < 0 then [45] else []) ++
    List.replicate (width - (decimal x.natAbs).length) 48 ++ decimal x.natAbs

/-- The trimming loop of `appendNano`: drop the trailing `'0'` bytes (on the
reversed digits). -/
def dropZeros : GoString → GoString
  | [] => []
  | c :: cs => if c = 48 then dropZeros cs else c :: cs

/-- Go `appendNano` for the layout element `.999999999`: nothing when the
nanosecond is 0, otherwise a dot and the nine digits without trailing zeros. -/
def appendNano (nanosec : Nat) : GoString :=
  if nanosec = 0 then []
  else 46 :: (dropZeros (appendInt nanosec 9).reverse).reverse

/-- Go `Time.Format(time.RFC3339Nano)` (`appendFormatRFC3339` with
`nanos = true`). -/
def Time.Format (t : Time) : GoString :=
  let abs := t.abs
  -- Format date.
  let date := absDate abs true
  let clock := absClock abs
  let b := appendInt date.1 4 ++ [45] ++ appendInt date.2.1 2 ++ [45] ++ appendInt date.2.2.1 2
  let b := b ++ [84]
  -- Format time.
  let b := b ++ appendInt clock.1 2 ++ [58] ++ appendInt clock.2.1 2 ++ [58]
              ++ appendInt clock.2.2 2
  let b := b ++ appendNano t.nsec
  if t.offset = 0 then b ++ [90]
  else
    -- Format zone.
    let zone := Int.tdiv t.offset 60
    let b := if zone < 0 then b ++ [45] else b ++ [43]
    let zone := if zone < 0 then -zone else zone
    b ++ appendInt (Int.tdiv zone 60) 2 ++ [58] ++ appendInt (Int.tmod zone 60) 2

/-- Go `fmt.Sprintf("%d", x)`. -/
def formatInt (x : Int) : GoString :=
  (if x < 0 then [45] else []) ++ decimal x.natAbs

/-! ## `path` -/

/-- The components of a path: the texts between its slashes (`sep`). -/
def splitOn (sep : UInt8) : GoString → List GoString
  | [] => [[]]
  | c :: cs =>
    if c = sep then [] :: splitOn sep cs
    else match splitOn sep cs with
      | [] => [[c]]
      | x :: xs => (c :: x) :: xs

/-- The components joined by single slashes. -/
def joinSlash : List GoString → GoString
  | [] => []
  | [c] => c
  | c :: cs => c ++ 47 :: joinSlash cs

/-- One step of `path.Clean` on the list of components kept so far: an empty
component (doubled or trailing slash) and `.` are dropped; `..` removes the
last kept component when there is one that is not itself `..`, is kept on an
unrooted path otherwise, and is dropped at the root; any other component is
kept. (In the Go code the kept components are the bytes of `out`, and `out.w
> dotdot` holds exactly when the last kept component is not `..`.) -/
def cleanStep (rooted : Bool) (kept : List GoString) (c : GoString) : List GoString :=
  if c = [] ∨ c = [46] then kept
  else if c = [46, 46] then
    match kept.getLast? with
    | some l => if l = [46, 46] then kept ++ [c] else kept.dropLast
    | none => if rooted then kept else kept ++ [c]
  else kept ++ [c]

/-- Go `path.Clean`: the shortest path equivalent to `path` by purely lexical
processing, as the rules of its documentation state them; the result is `.`
when nothing is left. -/
def Clean (path : GoString) : GoString :=
  if path = [] then [46]
  else
    let rooted := decide (path.head? = some 47)
    let kept := (splitOn 47 path).foldl (cleanStep rooted) []
    let out := (if rooted then [47] else []) ++ joinSlash kept
    if out = [] then [46] else out

/-- Go `path.Join`: the non-empty leading elements are skipped, the rest are
joined with slashes, and the result is cleaned; all elements empty gives the
empty string. -/
def Join (elem : List GoString) : GoString :=
  if (elem.map List.length).sum = 0 then []
  else
    Clean (elem.foldl (fun buf e =>
      if buf.length > 0 ∨ e ≠ [] then (if buf.length > 0 then buf ++ [47] else buf) ++ e
      else buf) [])

/-- The third argument of `path.Join` in `saveUserModelMetrics`:
`fmt.Sprintf("%d-%d", nowYear, nowWeek)` with `nowYear, nowWeek :=
now.ISOWeek()`. -/
def weekDir (now : Time) : GoString :=
  let week := now.ISOWeek
  formatInt week.1 ++ [45] ++ formatInt (week.2 : Int)

/-- The fourth argument of `path.Join` in `saveUserModelMetrics`:
`fmt.Sprintf("%s.json", now.Format(time.RFC3339Nano))`. -/
def fileName (now : Time) : GoString :=
  now.Format ++ ascii ".json"

/-- The value of `outPath` in `saveUserModelMetrics` when `time.Now()`
returned `now`: `path.Join(s.dataPath, "UserModelMetrics",
fmt.Sprintf("%d-%d", nowYear, nowWeek), fmt.Sprintf("%s.json",
now.Format(time.RFC3339Nano)))`. -/
def outPath (dataPath : GoString) (now : Time) : GoString :=
  Join [dataPath, ascii "UserModelMetrics", weekDir now, fileName now]

/-- The directory prefix under which `path.Join` places the elements that
follow a data root `d`: nothing when `d` is empty or cleans to `.`, the root
slash when `d` cleans to `/`, otherwise the cleaned form of `d` and a slash. -/
def pathBase (d : GoString) : GoString :=
  if d = [] ∨ Clean d = [46] then []
  else if Clean d = [47] then [47]
  else Clean d ++ [47]

/-- Go `Time.Date`: the calendar year, month and day of the value in its zone. -/
def Time.Date (t : Time) : Int × Nat × Nat :=
  let r := absDate t.abs true
  (r.1, r.2.1, r.2.2.1)

/-! ## `encoding/json`: the scanner -/

/-- A JSON value as `encoding/json` delimits it in the input. The decoder of
the record never looks inside an array or a nested object, so their contents
are checked by the scanner and not kept; a string keeps its bytes as written
between the quotes (escapes unresolved), a number its literal. -/
inductive JValue
  | null
  | bool (b : Bool)
  | number (lit : GoString)
  | string (raw : GoString)
  | array
  | object
deriving DecidableEq, Repr

/-- Go `isSpace` of the JSON scanner. -/
def isWS (c : UInt8) : Bool := c = 32 || c = 9 || c = 13 || c = 10

/-- Skip JSON white space. -/
def skipWS : GoString → GoString
  | [] => []
  | c :: cs => if isWS c then skipWS cs else c :: cs

/-- A decimal digit byte. -/
def isDigitByte (c : UInt8) : Bool := decide (48 ≤ c.toNat) && decide (c.toNat ≤ 57)

/-- A hexadecimal digit byte. -/
def isHexByte (c : UInt8) : Bool :=
  isDigitByte c || (decide (97 ≤ c.toNat) && decide (c.toNat ≤ 102))
    || (decide (65 ≤ c.toNat) && decide (c.toNat ≤ 70))

/-- The scanner states `stateInString`, `stateInStringEsc` and
`stateInStringEscU*`: the bytes of a string literal after its opening quote, up
to the closing quote, and the input after it. Control bytes and unknown
escapes are syntax errors. -/
def scanString : GoString → Option (GoString × GoString)
  | [] => none
  | c :: cs =>
    if c = 34 then some ([], cs)
    else if c = 92 then
      match cs with
      | [] => none
      | e :: cs1 =>
        if e = 98 ∨ e = 102 ∨ e = 110 ∨ e = 114 ∨ e = 116 ∨ e = 92 ∨ e = 47 ∨ e = 34 then
          match scanString cs1 with
          | none => none
          | some (raw, rest) => some (c :: e :: raw, rest)
        else if e = 117 then
          match cs1 with
          | h1 :: h2 :: h3 :: h4 :: cs2 =>
            if isHexByte h1 && isHexByte h2 && isHexByte h3 && isHexByte h4 then
              match scanString cs2 with
              | none => none
              | some (raw, rest) => some (c :: e :: h1 :: h2 :: h3 :: h4 :: raw, rest)
            else none
          | _ => none
        else none
    else if c.toNat < 32 then none
    else
      match scanString cs with
      | none => none
      | some (raw, rest) => some (c :: raw, rest)

/-- The leading decimal digits of the input and the rest. -/
def takeDigits : GoString → GoString × GoString
  | [] => ([], [])
  | c :: cs =>
    if isDigitByte c then ((c :: (takeDigits cs).1), (takeDigits cs).2) else ([], c :: cs)

/-- The scanner states of a number (`stateNeg`, `state0`, `state1`, `stateDot`,
`stateE`, ...): the longest number literal at the head of the input, of the
form `-? (0 | [1-9][0-9]*) (. [0-9]+)? ([eE] [+-]? [0-9]+)?`, and the rest. -/
def scanNumber (s : GoString) : Option (GoString × GoString) :=
  let sign : GoString := if s.head? = some 45 then [45] else []
  let s1 := if s.head? = some 45 then s.drop 1 else s
  match s1 with
  | [] => none
  | c :: cs =>
    if !isDigitByte c then none
    else
      let intPart : GoString := if c = 48 then [48] else c :: (takeDigits cs).1
      let s2 := if c = 48 then cs else (takeDigits cs).2
      let fracOk : Bool := !(s2.head? = some 46) || !((takeDigits (s2.drop 1)).1.isEmpty)
      let frac : GoString := if s2.head? = some 46 then 46 :: (takeDigits (s2.drop 1)).1 else []
      let s3 := if s2.head? = some 46 then (takeDigits (s2.drop 1)).2 else s2
      let hasExp : Bool := s3.head? = some 101 || s3.head? = some 69
      let s4 := s3.drop 1
      let hasSign : Bool := s4.head? = some 43 || s4.head? = some 45
      let s5 := if hasSign then s4.drop 1 else s4
      let expOk : Bool := !hasExp || !((takeDigits s5).1.isEmpty)
      let exp : GoString :=
        if hasExp then s3.take 1 ++ (if hasSign then s4.take 1 else []) ++ (takeDigits s5).1
        else []
      let rest := if hasExp then (takeDigits s5).2 else s3
      if fracOk && expOk then some (sign ++ intPart ++ frac ++ exp, rest) else none

mutual
/-- One JSON value at the head of the input (white space already skipped):
the value, the members when it is an object (keys as written between their
quotes), and the input after it. The first argument bounds the recursion, the
second is the nesting depth (`maxNestingDepth` is 10000). -/
def scanValue : Nat → Nat → GoString → Option (JValue × List (GoString × JValue) × GoString)
  | 0, _, _ => none
  | fuel + 1, depth, s =>
    match s with
    | [] => none
    | c :: cs =>
      if c = 123 then
        if depth + 1 > 10000 then none
        else
          match skipWS cs with
          | [] => none
          | d :: ds =>
            if d = 125 then some (JValue.object, [], ds)
            else
              match scanMembers fuel (depth + 1) (d :: ds) with
              | none => none
              | some (ms, rest) => some (JValue.object, ms, rest)
      else if c = 91 then
        if depth + 1 > 10000 then none
        else
          match skipWS cs with
          | [] => none
          | d :: ds =>
            if d = 93 then some (JValue.array, [], ds)
            else
              match scanElements fuel (depth + 1) (d :: ds) with
              | none => none
              | some rest => some (JValue.array, [], rest)
      else if c = 34 then
        match scanString cs with
        | none => none
        | some (raw, rest) => some (JValue.string raw, [], rest)
      else if c = 45 ∨ isDigitByte c = true then
        match scanNumber (c :: cs) with
        | none => none
        | some (lit, rest) => some (JValue.number lit, [], rest)
      else if (c :: cs).take 4 = [116, 114, 117, 101] then some (JValue.bool true, [], cs.drop 3)
      else if (c :: cs).take 5 = [102, 97, 108, 115, 101] then
        some (JValue.bool false, [], cs.drop 4)
      else if (c :: cs).take 4 = [110, 117, 108, 108] then some (JValue.null, [], cs.drop 3)
      else none
/-- The members of an object from the opening quote of a key on, up to the
closing brace. -/
def scanMembers : Nat → Nat → GoString → Option (List (GoString × JValue) × GoString)
  | 0, _, _ => none
  | fuel + 1, depth, s =>
    match s with
    | [] => none
    | c :: cs =>
      if c ≠ 34 then none
      else
        match scanString cs with
        | none => none
        | some (key, rest) =>
          match skipWS rest with
          | [] => none
          | d :: ds =>
            if d ≠ 58 then none
            else
              match scanValue fuel depth (skipWS ds) with
              | none => none
              | some (v, _, rest1) =>
                match skipWS rest1 with
                | [] => none
                | e :: es =>
                  if e = 125 then some ([(key, v)], es)
                  else if e = 44 then
                    match scanMembers fuel depth (skipWS es) with
                    | none => none
                    | some (ms, rest2) => some ((key, v) :: ms, rest2)
                  else none
/-- The elements of an array from its first element on, up to the closing
bracket. -/
def scanElements : Nat → Nat → GoString → Option GoString
  | 0, _, _ => none
  | fuel + 1, depth, s =>
    match scanValue fuel depth s with
    | none => none
    | some (_, _, rest) =>
      match skipWS rest with
      | [] => none
      | e :: es =>
        if e = 93 then some es
        else if e = 44 then scanElements fuel depth (skipWS es)
        else none
end

/-- The syntax pass of `json.Unmarshal` (`checkValid`): the input is one JSON
value surrounded by optional white space. Yields the value and, for an
object, its members in input order. Every recursive call of the scanner
consumes input, so the bound `2 * len + 2` is never reached. -/
def scanDocument (data : GoString) : Option (JValue × List (GoString × JValue)) :=
  match scanValue (2 * data.length + 2) 0 (skipWS data) with
  | none => none
  | some (v, ms, rest) => if skipWS rest = [] then some (v, ms) else none

/-! ## What lies outside the repository and the modelled library -/

/-- The parts of the environment of `server.go` that are taken as given:
* `lowerTab`: the Unicode lower-case table, `unicode.To(unicode.LowerCase, r)`
  for a non-ASCII rune `r`;
* `foldTab`: the case-folding of `encoding/json` for a non-ASCII rune
  (`foldRune`, the least rune of its `unicode.SimpleFold` orbit);
* `timeParse`: the general parser `time.Parse(time.RFC3339, s)`, which
  `Time.UnmarshalJSON` falls back to when the strict RFC 3339 parser rejects
  the text (`none` when it returns an error);
* `metricsFields`: the JSON names of the counters of `api.Metrics`, a type of
  the module `github.com/ollama/ollama` embedded in `UserModelMetrics`. -/
structure External where
  lowerTab : Nat → Nat
  foldTab : Nat → Nat
  timeParse : GoString → Option Time
  metricsFields : List GoString

/-! ## `encoding/json`: decoding into `UserModelMetrics` -/

/-- Go `utf16.DecodeRune` after `utf16.IsSurrogate(r1)`: the rune of a
surrogate pair, or U+FFFD when the pair is not valid; `r2` is -1 when no
`\u` escape follows. -/
def decodeSurrogates (r1 : Nat) (r2 : Int) : Nat :=
  if 55296 ≤ r1 ∧ r1 < 56320 ∧ 56320 ≤ r2 ∧ r2 < 57344 then
    (r1 - 55296) * 1024 + (r2.toNat - 56320) + 65536
  else 65533

/-- The value of a hexadecimal digit byte. -/
def hexVal (c : UInt8) : Nat :=
  if isDigitByte c then c.toNat - 48
  else if 97 ≤ c.toNat ∧ c.toNat ≤ 102 then c.toNat - 97 + 10
  else c.toNat - 65 + 10

/-- Go `getu4`: the rune of a `\uXXXX` escape at the head of the input, or -1. -/
def getu4 (s : GoString) : Int :=
  match s with
  | b :: u :: h1 :: h2 :: h3 :: h4 :: _ =>
    if b = 92 ∧ u = 117 ∧ isHexByte h1 ∧ isHexByte h2 ∧ isHexByte h3 ∧ isHexByte h4 then
      ((hexVal h1 * 4096 + hexVal h2 * 256 + hexVal h3 * 16 + hexVal h4 : Nat) : Int)
    else -1
  | _ => -1

/-- The second loop of Go `unquoteBytes` on the bytes between the quotes of a
string literal: escapes are resolved and invalid UTF-8 is replaced by U+FFFD;
`none` for an invalid literal. (The first loop only detects literals that need
no change, for which both loops return the bytes as they are.) -/
def unquoteBytes : Nat → GoString → Option GoString
  | 0, s => if s = [] then some [] else none
  | fuel + 1, s =>
    match s with
    | [] => some []
    | c :: cs =>
      if c = 92 then
        match cs with
        | [] => none
        | e :: cs1 =>
          if e = 34 ∨ e = 92 ∨ e = 47 ∨ e = 39 then (unquoteBytes fuel cs1).map (e :: ·)
          else if e = 98 then (unquoteBytes fuel cs1).map (8 :: ·)
          else if e = 102 then (unquoteBytes fuel cs1).map (12 :: ·)
          else if e = 110 then (unquoteBytes fuel cs1).map (10 :: ·)
          else if e = 114 then (unquoteBytes fuel cs1).map (13 :: ·)
          else if e = 116 then (unquoteBytes fuel cs1).map (9 :: ·)
          else if e = 117 then
            let rr := getu4 (c :: cs)
            if rr < 0 then none
            else
              let rest := (c :: cs).drop 6
              if 55296 ≤ rr ∧ rr < 57344 then
                let dec := decodeSurrogates rr.toNat (getu4 rest)
                if dec ≠ 65533 then (unquoteBytes fuel (rest.drop 6)).map (EncodeRune dec ++ ·)
                else (unquoteBytes fuel rest).map (EncodeRune 65533 ++ ·)
              else (unquoteBytes fuel rest).map (EncodeRune rr.toNat ++ ·)
          else none
      else if c = 34 ∨ c.toNat < 32 then none
      else if c.toNat < 128 then (unquoteBytes fuel cs).map (c :: ·)
      else
        let d := DecodeRuneInString (c :: cs)
        (unquoteBytes fuel ((c :: cs).drop d.2)).map (EncodeRune d.1 ++ ·)

/-- Go `unquote` applied to the bytes between the quotes of a literal. -/
def unquote (raw : GoString) : Option GoString := unquoteBytes raw.length raw

/-- Go `foldName` of `encoding/json`: ASCII letters in upper case, every other
rune replaced by its fold representative. -/
def foldName (foldTab : Nat → Nat) : Nat → GoString → GoString
  | 0, _ => []
  | fuel + 1, s =>
    match s with
    | [] => []
    | c :: cs =>
      if c.toNat < 128 then
        (if 97 ≤ c.toNat ∧ c.toNat ≤ 122 then UInt8.ofNat (c.toNat - 32) else c)
          :: foldName foldTab fuel cs
      else
        let d := DecodeRuneInString (c :: cs)
        EncodeRune (foldTab d.1) ++ foldName foldTab fuel ((c :: cs).drop d.2)

/-- The fields of `UserModelMetrics` a JSON key can select. -/
inductive Field
  | CreatedAt
  | Model
  | UserId
  | UserName
  | Metric (name : GoString)
deriving DecidableEq, Repr

/-- The JSON names of the fields declared in `UserModelMetrics` itself. -/
def ownNames : List GoString :=
  [ascii "created_at", ascii "model", ascii "user_id", ascii "user_name"]

/-- Modelled from the spec: `api.Metrics` is declared in another module; its
fields are numeric counters (`int` / `time.Duration`, 64-bit integers) that are
passed through, each tagged `omitempty`. Go's rules for embedded structs hide
a promoted field whose JSON name is also the name of a field of the outer
struct, and hide fields of equal depth that share a name. -/
def visibleMetrics (ext : External) : List GoString :=
  ext.metricsFields.filter (fun n => !(ownNames.contains n) && ext.metricsFields.count n == 1)

/-- The JSON-visible fields of `UserModelMetrics`, in index order. -/
def fieldList (ext : External) : List (GoString × Field) :=
  [(ascii "created_at", Field.CreatedAt), (ascii "model", Field.Model),
    (ascii "user_id", Field.UserId), (ascii "user_name", Field.UserName)]
    ++ (visibleMetrics ext).map (fun n => (n, Field.Metric n))

/-- The field lookup of the struct decoder: the field whose name is exactly
the key, otherwise the first field whose name equals the key under case
folding, otherwise none (the member is skipped). -/
def findField (ext : External) (key : GoString) : Option Field :=
  match (fieldList ext).find? (fun f => f.1 = key) with
  | some f => some f.2
  | none =>
    ((fieldList ext).find? (fun f =>
      foldName ext.foldTab f.1.length f.1 = foldName ext.foldTab key.length key)).map (·.2)

/-- Go `UserModelMetrics`; the embedded `api.Metrics` is the list of its
visible counters with their values. -/
structure UserModelMetrics where
  CreatedAt : Time
  Model : GoString
  UserId : GoString
  UserName : GoString
  Metrics : List (GoString × Int)
deriving DecidableEq, Repr

/-- The zero `time.Time`: January 1, year 1, 00:00:00 UTC. -/
def Time.zero : Time := ⟨-62135596800, 0, 0⟩

/-- The zero value `UserModelMetrics{}`. -/
def UserModelMetrics.zero (ext : External) : UserModelMetrics :=
  ⟨Time.zero, [], [], [], (visibleMetrics ext).map (fun n => (n, 0))⟩

/-- The number a string of decimal digits denotes. -/
def digitsValue (s : GoString) : Nat := s.foldl (fun acc c => acc * 10 + (c.toNat - 48)) 0

/-- Go `strconv.ParseInt(lit, 10, 64)` on a JSON number literal: an optional
minus sign and digits, within the range of `int64`. -/
def parseInt64 (lit : GoString) : Option Int :=
  let neg := decide (lit.head? = some 45)
  let ds := if neg then lit.drop 1 else lit
  if ds.isEmpty || !ds.all isDigitByte then none
  else
    let x : Int := if neg then -(digitsValue ds : Int) else (digitsValue ds : Int)
    if -9223372036854775808 ≤ x ∧ x < 9223372036854775808 then some x else none

/-! ### `time`: parsing RFC 3339 -/

/-- The closure `parseUint` of Go `parseRFC3339`: a run of digits read as a
number that has to lie in `min ..= max`. -/
def parseUint (s : GoString) (min max : Nat) : Option Nat :=
  if s.all isDigitByte ∧ min ≤ digitsValue s ∧ digitsValue s ≤ max then some (digitsValue s)
  else none

/-- Go `daysIn`. -/
def daysIn (month : Nat) (year : Int) : Nat :=
  if month = 2 ∧ isLeap year then 29
  else daysBefore.getD month 0 - daysBefore.getD (month - 1) 0

/-- Go `daysSinceEpoch`: the days from the absolute epoch to January 1 of
`year`. -/
def daysSinceEpoch (year : Int) : Nat :=
  let y := ((year - absoluteZeroYear) % 18446744073709551616).toNat
  -- Add in days from 400-year cycles.
  let n := y / 400
  let y := y - 400 * n
  let d := 146097 * n
  -- Add in 100-year cycles.
  let n := y / 100
  let y := y - 100 * n
  let d := d + 36524 * n
  -- Add in 4-year cycles.
  let n := y / 4
  let y := y - 4 * n
  let d := d + 1461 * n
  -- Add in non-leap years.
  d + 365 * y

/-- Go `time.Date(year, month, day, hour, min, sec, nsec, time.UTC)` for
arguments already in their ranges (as `parseRFC3339` passes them, so that the
normalisation steps change nothing); the conversions between `uint64` and
`int64` wrap. -/
def Date (year : Int) (month day hour min sec nsec : Nat) : Time :=
  -- Compute days since the absolute epoch.
  let d := daysSinceEpoch year
  -- Add in days before this month.
  let d := d + daysBefore.getD (month - 1) 0
  let d := if isLeap year ∧ month ≥ 3 then d + 1 else d
  -- Add in days before today.
  let d := d + (day - 1)
  -- Add in time elapsed today.
  let abs := (d * 86400 + (hour * 3600 + min * 60 + sec)) % 18446744073709551616
  let unix : Int :=
    ((abs : Int) - 9223372028715321600 + 9223372036854775808) % 18446744073709551616
      - 9223372036854775808
  ⟨unix, nsec, 0⟩

/-- Go `parseNanoseconds(s, n)` for `s = "." ++ digits`: the first nine digits,
scaled to nanoseconds. -/
def parseNanoseconds (digits : GoString) : Nat :=
  let ds := digits.take 9
  digitsValue ds * 10 ^ (9 - ds.length)

/-- Go `parseRFC3339`: the strict parser for
`YYYY-MM-DDTHH:MM:SS[.fraction](Z|±HH:MM)`. The result carries the offset
written in the text (Go attaches the local zone when it has this offset at
that instant, a fixed zone otherwise). -/
def parseRFC3339 (s : GoString) : Option Time :=
  if s.length < 19 then none
  else
    match parseUint (s.take 4) 0 9999, parseUint ((s.drop 5).take 2) 1 12 with
    | some year, some month =>
      match parseUint ((s.drop 8).take 2) 1 (daysIn month (year : Int)),
        parseUint ((s.drop 11).take 2) 0 23, parseUint ((s.drop 14).take 2) 0 59,
        parseUint ((s.drop 17).take 2) 0 59 with
      | some day, some hour, some min, some sec =>
        if !(s.getD 4 0 = 45 ∧ s.getD 7 0 = 45 ∧ s.getD 10 0 = 84 ∧ s.getD 13 0 = 58
              ∧ s.getD 16 0 = 58) then none
        else
          let s1 := s.drop 19
          -- Parse the fractional second.
          let hasFrac : Bool :=
            decide (s1.length ≥ 2) && decide (s1.head? = some 46) && isDigitByte (s1.getD 1 0)
          let nsec := if hasFrac then parseNanoseconds (takeDigits (s1.drop 1)).1 else 0
          let s2 := if hasFrac then (takeDigits (s1.drop 1)).2 else s1
          -- Parse the time zone.
          let t := Date (year : Int) month day hour min sec nsec
          if s2 = [90] then some t
          else if s2.length ≠ 6 then none
          else
            match parseUint ((s2.drop 1).take 2) 0 23, parseUint ((s2.drop 4).take 2) 0 59 with
            | some hr, some mm =>
              if !((s2.getD 0 0 = 45 ∨ s2.getD 0 0 = 43) ∧ s2.getD 3 0 = 58) then none
              else
                let zoneOffset : Int :=
                  if s2.getD 0 0 = 45 then -(((hr * 60 + mm) * 60 : Nat) : Int)
                  else (((hr * 60 + mm) * 60 : Nat) : Int)
                some ⟨t.sec - zoneOffset, t.nsec, zoneOffset⟩
            | _, _ => none
      | _, _, _, _ => none
    | _, _ => none

/-- Go `Time.UnmarshalJSON` on the literal of a member value: `null` leaves
the field as it is, a string is parsed (`parseStrictRFC3339`: the strict
parser, then `time.Parse`), anything else is an error. -/
def Time.UnmarshalJSON (ext : External) (t : Time) (v : JValue) : Except GoString Time :=
  match v with
  | JValue.null => Except.ok t
  | JValue.string raw =>
    match parseRFC3339 raw with
    | some t1 => Except.ok t1
    | none =>
      match ext.timeParse raw with
      | some t1 => Except.ok t1
      | none => Except.error (ascii "parsing time: cannot parse as RFC 3339")
  | _ => Except.error (ascii "Time.UnmarshalJSON: input is not a JSON string")

/-- The state of the struct decoder: the record filled so far and the first
type error saved (`d.saveError`). -/
structure DecodeState where
  record : UserModelMetrics
  savedError : Option GoString
deriving DecidableEq, Repr

/-- Go `decodeState.saveError`: only the first error is kept. -/
def DecodeState.saveError (st : DecodeState) (e : GoString) : DecodeState :=
  match st.savedError with
  | some _ => st
  | none => { st with savedError := some e }

/-- Storing a member value into a `string` field (`literalStore`): a string
is unquoted and stored, `null` changes nothing, any other value is a type
error that is saved while decoding goes on. -/
def storeString (st : DecodeState) (v : JValue)
    (set : UserModelMetrics → GoString → UserModelMetrics) : Except GoString DecodeState :=
  match v with
  | JValue.string raw =>
    match unquote raw with
    | some str => Except.ok { st with record := set st.record str }
    | none => Except.error (ascii "json: invalid string literal")
  | JValue.null => Except.ok st
  | _ => Except.ok (st.saveError (ascii "json: cannot unmarshal value into Go struct field of type string"))

/-- Storing a member value into a 64-bit integer field of `api.Metrics`. -/
def storeInt (st : DecodeState) (v : JValue) (name : GoString) : DecodeState :=
  match v with
  | JValue.number lit =>
    match parseInt64 lit with
    | some n =>
      { st with record := { st.record with
          Metrics := st.record.Metrics.map (fun m => if m.1 = name then (m.1, n) else m) } }
    | none => st.saveError (ascii "json: cannot unmarshal number into Go struct field of type int")
  | JValue.null => st
  | _ => st.saveError (ascii "json: cannot unmarshal value into Go struct field of type int")

/-- One iteration of the loop of `decodeState.object` for a struct: the key
is unquoted and looked up; a member that selects no field is skipped; an
error of `Time.UnmarshalJSON` ends decoding at once. -/
def decodeMember (ext : External) (st : DecodeState) (m : GoString × JValue) :
    Except GoString DecodeState :=
  match unquote m.1 with
  | none => Except.error (ascii "json: invalid string literal")
  | some key =>
    match findField ext key with
    | none => Except.ok st
    | some Field.CreatedAt =>
      match Time.UnmarshalJSON ext st.record.CreatedAt m.2 with
      | Except.ok t => Except.ok { st with record := { st.record with CreatedAt := t } }
      | Except.error e => Except.error e
    | some Field.Model => storeString st m.2 (fun r x => { r with Model := x })
    | some Field.UserId => storeString st m.2 (fun r x => { r with UserId := x })
    | some Field.UserName => storeString st m.2 (fun r x => { r with UserName := x })
    | some (Field.Metric name) => Except.ok (storeInt st m.2 name)

/-- The loop of `decodeState.object` over the members of the object. -/
def decodeMembers (ext : External) :
    DecodeState → List (GoString × JValue) → Except GoString DecodeState
  | st, [] => Except.ok st
  | st, m :: ms =>
    match decodeMember ext st m with
    | Except.ok st1 => decodeMembers ext st1 ms
    | Except.error e => Except.error e

/-- Go `json.Unmarshal(data, &userModelMetrics)` on a zero record: a syntax
error is reported first; an object is decoded member by member; `null` leaves
the record as it is; any other value is a type error. -/
def jsonUnmarshal (ext : External) (data : GoString) : Except GoString UserModelMetrics :=
  match scanDocument data with
  | none => Except.error (ascii "invalid character or unexpected end of JSON input")
  | some (JValue.object, members) =>
    match decodeMembers ext ⟨UserModelMetrics.zero ext, none⟩ members with
    | Except.error e => Except.error e
    | Except.ok st =>
      match st.savedError with
      | some e => Except.error e
      | none => Except.ok st.record
  | some (JValue.null, _) => Except.ok (UserModelMetrics.zero ext)
  | some (_, _) =>
    Except.error (ascii "json: cannot unmarshal value into Go value of type main.UserModelMetrics")

/-- Go `parseUserModelMetrics`: the record, or the error of `json.Unmarshal`
(with a nil record). -/
def parseUserModelMetrics (ext : External) (data : GoString) :
    Except GoString UserModelMetrics :=
  jsonUnmarshal ext data

/-! ## `encoding/json`: encoding a `UserModelMetrics` -/

/-- The closure `num2` of Go `appendStrictRFC3339`, in `byte` arithmetic. -/
def num2 (b : GoString) : Nat :=
  (10 * ((b.getD 0 0).toNat + 256 - 48) + ((b.getD 1 0).toNat + 256 - 48)) % 256

/-- Go `Time.MarshalJSON` (`appendStrictRFC3339`): the RFC 3339 rendering with
nanoseconds, rejected when the year is not four digits wide or the zone hour
is not below 24. -/
def Time.MarshalJSON (t : Time) : Except GoString GoString :=
  let b := t.Format
  if b.getD 4 0 ≠ 45 then
    Except.error (ascii "Time.MarshalJSON: year outside of range [0,9999]")
  else if b.getLast? ≠ some 90 ∧
      (isDigitByte (b.getD (b.length - 6) 0) = true ∨ num2 (b.drop (b.length - 5)) ≥ 24) then
    Except.error (ascii "Time.MarshalJSON: timezone hour outside of range [0,23]")
  else Except.ok b

/-- A member value of the encoded record: a string or an integer. -/
inductive OutValue
  | str (s : GoString)
  | int (n : Int)
deriving DecidableEq, Repr

/-- The JSON object `json.Marshal` emits for a record, as its members in
order. (The bytes of the text, i.e. how the encoder escapes a string, are not
modelled.) -/
abbrev Document := List (GoString × OutValue)

/-- Go `json.Marshal(userModelMetrics)`: `created_at` through
`Time.MarshalJSON`, `model` always, `user_id`, `user_name` and the counters of
`api.Metrics` only when not empty (`omitempty`). -/
def jsonMarshal (r : UserModelMetrics) : Except GoString Document :=
  match r.CreatedAt.MarshalJSON with
  | Except.error e => Except.error (ascii "json: error calling MarshalJSON for type time.Time: " ++ e)
  | Except.ok ts =>
    Except.ok
      ([(ascii "created_at", OutValue.str ts), (ascii "model", OutValue.str r.Model)]
        ++ (if r.UserId = [] then [] else [(ascii "user_id", OutValue.str r.UserId)])
        ++ (if r.UserName = [] then [] else [(ascii "user_name", OutValue.str r.UserName)])
        ++ (r.Metrics.filter (fun m => m.2 ≠ 0)).map (fun m => (m.1, OutValue.int m.2)))

/-- The value of the member named `key` of an encoded record. -/
def Document.get? (doc : Document) (key : GoString) : Option OutValue :=
  (doc.find? (fun m => m.1 = key)).map (·.2)

/-! ## The operating system -/

/-- The outcome of `os.Stat(outDir)`. -/
inductive StatResult
  | exists
  | notExist
  | otherError
deriving DecidableEq, Repr

/-- What the operating system answers during one request: the clock reading
of `time.Now()`, the outcome of `os.Stat`, and the errors (if any) of
`os.MkdirAll` and `os.WriteFile`. -/
structure Env where
  now : Time
  stat : StatResult
  mkdirErr : Option GoString
  writeErr : Option GoString
deriving DecidableEq, Repr

/-- The files and directories created so far. -/
structure World where
  files : List (GoString × Document)
  dirs : List GoString
deriving DecidableEq, Repr

/-- The text of a path up to and including its last slash (`path.Split`). -/
def splitDir (p : GoString) : GoString :=
  (p.reverse.dropWhile (fun c => c != 47)).reverse

/-- Go `path.Dir`. -/
def Dir (p : GoString) : GoString := Clean (splitDir p)

/-- Go `Server.saveUserModelMetrics`: the world after the call and the error
returned (`none` for `nil`). -/
def Server.saveUserModelMetrics (s : Server) (env : Env) (world : World)
    (userModelMetrics : UserModelMetrics) : World × Option GoString :=
  match jsonMarshal userModelMetrics with
  | Except.error err => (world, some err)
  | Except.ok buffer =>
    let now := env.now
    let outPath := outPath s.dataPath now
    let outDir := Dir outPath
    let mkdir : Bool := decide (env.stat = StatResult.notExist)
    if mkdir ∧ env.mkdirErr.isSome then (world, env.mkdirErr)
    else
      let world1 : World := if mkdir then { world with dirs := outDir :: world.dirs } else world
      match env.writeErr with
      | some err => (world1, some err)
      | none =>
        ({ world1 with files := (outPath, buffer) :: world1.files.filter (fun f => f.1 ≠ outPath) },
          none)

/-! ## The ingestion handler -/

/-- The error of a `Read` call. -/
inductive ReadError
  | none
  | EOF
  | other (msg : GoString)
deriving DecidableEq, Repr

/-- An incoming request as the handler sees it: the value of the
`Authorization` header (empty when absent), the bytes of the body, the number
of bytes the transport has ready when the body is first read, and the error
that first `Read` returns. -/
structure Request where
  authorization : GoString
  body : GoString
  ready : Nat
  readErr : ReadError
deriving DecidableEq, Repr

/-- Go `request.Body.Read(buffer)` for a buffer of `bufLen` bytes, first call:
the number of bytes stored (never more than the buffer holds, than are ready,
or than the body has) and the error. -/
def Request.Read (r : Request) (bufLen : Nat) : Nat × ReadError :=
  (min (min r.ready bufLen) r.body.length, r.readErr)

/-- The slice `buffer[:n]` the handler passes to `parseUserModelMetrics`. -/
def Request.payload (r : Request) : GoString :=
  r.body.take (r.Read (2 * 1024)).1

/-- Go `Server.userModelMetricHandle`: the response writer and the world
after the call. -/
def Server.userModelMetricHandle (ext : External) (s : Server) (env : Env) (world : World)
    (response : ResponseWriter) (request : Request) : ResponseWriter × World :=
  let read := request.Read (2 * 1024)
  let n := read.1
  let err := read.2
  if (err ≠ ReadError.none ∧ err ≠ ReadError.EOF) ∨ n = 0 then
    (Fprintln (response.WriteHeader StatusBadRequest) (ascii "Failed to read payload"), world)
  else
    match parseUserModelMetrics ext (request.body.take n) with
    | Except.error err =>
      (Fprintln (response.WriteHeader StatusBadRequest)
        (ascii "Failed to parse payload: " ++ err), world)
    | Except.ok userModelMetrics =>
      (response, (s.saveUserModelMetrics env world userModelMetrics).1)

/-- An instance of the external tables for evaluating examples: the two
non-ASCII runes whose lower case is ASCII (the Kelvin sign and the dotted
capital I) and the two whose fold representative is ASCII (the Kelvin sign and
the long s), a fallback time parser that accepts nothing further, and the
counters of ollama's `api.Metrics`. -/
def sampleExternal : External where
  lowerTab := fun r => if r = 8490 then 107 else if r = 304 then 105 else r
  foldTab := fun r => if r = 8490 then 75 else if r = 383 then 83 else r
  timeParse := fun _ => none
  metricsFields :=
    [ascii "total_duration", ascii "load_duration", ascii "prompt_eval_count",
      ascii "prompt_eval_duration", ascii "eval_count", ascii "eval_duration"]

/-! ## The record shape of a request body -/

/-- The JSON name of a field. -/
def Field.name : Field → GoString
  | Field.CreatedAt => ascii "created_at"
  | Field.Model => ascii "model"
  | Field.UserId => ascii "user_id"
  | Field.UserName => ascii "user_name"
  | Field.Metric n => n

/-- A decimal digit byte. -/
def isDigit (c : UInt8) : Prop := 48 ≤ c.toNat ∧ c.toNat ≤ 57

/-- The number a digit string denotes, read from its reversed form. -/
def valRev : GoString → Nat
  | [] => 0
  | c :: cs => (c.toNat - 48) + 10 * valRev cs

/-- The zero-padded decimal rendering that `appendInt` emits after the sign. -/
def padded (width n : Nat) : GoString :=
  List.replicate (width - (decimal n).length) 48 ++ decimal n

/-- The year count since the absolute epoch and the day of the year of day
number `d`, as the first half of `absDate` computes them. -/
def yearDay (d : Nat) : Nat × Nat :=
  let n := d / 146097
  let y := 400 * n
  let d := d - 146097 * n
  let n := d / 36524
  let n := n - n / 4
  let y := y + 100 * n
  let d := d - 36524 * n
  let n := d / 1461
  let y := y + 4 * n
  let d := d - 1461 * n
  let n := d / 365
  let n := n - n / 4
  let y := y + n
  let d := d - 365 * n
  (y, d)

/-- Month and day of month of day `yday` of a year, as the second half of
`absDate` computes them. -/
def monthDay (leap : Bool) (yday : Nat) : Nat × Nat :=
  if leap && decide (yday = 31 + 29 - 1) then (2, 29)
  else
    let day := if leap && decide (yday > 31 + 29 - 1) then yday - 1 else yday
    let month := day / 31
    let monthEnd := daysBefore.getD (month + 1) 0
    let month1 := if day ≥ monthEnd then month + 1 else month
    let monthBegin := if day ≥ monthEnd then monthEnd else daysBefore.getD month 0
    (month1 + 1, day - monthBegin + 1)

/-- The day of the year recovered from month and day of month. -/
def ydayOf (leap : Bool) (month day : Nat) : Nat :=
  daysBefore.getD (month - 1) 0 + day - 1 + (if leap && decide (month > 2) then 1 else 0)

/-- The zone suffix of the RFC 3339 rendering. -/
def zoneText (offset : Int) : GoString :=
  if offset = 0 then [90]
  else
    (if Int.tdiv offset 60 < 0 then 45 else 43) ::
      (appendInt (Int.tdiv (if Int.tdiv offset 60 < 0 then -(Int.tdiv offset 60)
          else Int.tdiv offset 60) 60) 2 ++
        58 :: appendInt (Int.tmod (if Int.tdiv offset 60 < 0 then -(Int.tdiv offset 60)
          else Int.tdiv offset 60) 60) 2)

/-- A byte of the fraction: the dot or a digit. -/
def isFracByte (c : UInt8) : Prop := c = 46 ∨ isDigit c

/-- A component `path.Clean` keeps and that holds no slash. -/
def goodComponent (c : GoString) : Prop := c ≠ [] ∧ c ≠ [46] ∧ (47 : UInt8) ∉ c

/-- A component other than the empty one, `.` and `..`. -/
def plainComponent (c : GoString) : Prop := c ≠ [] ∧ c ≠ [46] ∧ c ≠ [46, 46]

theorem toNat_ofNat_byte (n : Nat) : (UInt8.ofNat n).toNat = n % 256 := rfl

/-! ## Decimal rendering -/

theorem digitsRev_val : ∀ (fuel n : Nat), n ≤ fuel → valRev (digitsRev fuel n) = n := by
  intro fuel
  induction fuel with
  | zero => intro n h; have : n = 0 := by omega
            subst this; rfl
  | succ k ih =>
    intro n h
    unfold digitsRev
    split_ifs with h0
    · subst h0; rfl
    · simp only [valRev, toNat_ofNat_byte]
      rw [ih (n / 10) (by omega)]
      omega

theorem digitsRev_digit : ∀ (fuel n : Nat), ∀ c ∈ digitsRev fuel n, isDigit c := by
  intro fuel
  induction fuel with
  | zero => intro n c hc; simp [digitsRev] at hc
  | succ k ih =>
    intro n c hc
    unfold digitsRev at hc
    split_ifs at hc with h0
    · simp at hc
    · rcases List.mem_cons.1 hc with rfl | h
      · simp only [isDigit, toNat_ofNat_byte]; omega
      · exact ih _ c h

theorem digitsRev_length : ∀ (k fuel n : Nat), n < 10 ^ k → (digitsRev fuel n).length ≤ k := by
  intro k
  induction k with
  | zero =>
    intro fuel n h
    have : n = 0 := by simpa using h
    subst this
    cases fuel <;> simp [digitsRev]
  | succ k ih =>
    intro fuel n h
    cases fuel with
    | zero => simp [digitsRev]
    | succ f =>
      unfold digitsRev
      split_ifs with h0
      · simp
      · simp only [List.length_cons, Nat.add_le_add_iff_right]
        apply ih
        rw [pow_succ] at h
        omega

theorem valRev_append_zeros (l : GoString) (k : Nat) :
    valRev (l ++ List.replicate k 48) = valRev l := by
  induction l with
  | nil =>
    induction k with
    | zero => rfl
    | succ k ih => 
      simp only [List.nil_append] at ih
      simp only [List.nil_append, List.replicate_succ, valRev, ih]
      rfl
  | cons c cs ih =>
    show c.toNat - 48 + 10 * valRev (cs ++ List.replicate k 48) = _
    rw [ih]; rfl

theorem decimal_val (n : Nat) : valRev (decimal n).reverse = n := by
  unfold decimal
  split_ifs with h
  · subst h; rfl
  · rw [List.reverse_reverse]; exact digitsRev_val n n le_rfl

theorem decimal_digit (n : Nat) : ∀ c ∈ decimal n, isDigit c := by
  unfold decimal
  split_ifs with h
  · intro c hc
    simp only [List.mem_singleton] at hc
    subst hc; exact ⟨by decide, by decide⟩
  · intro c hc
    exact digitsRev_digit n n c (List.mem_reverse.1 hc)

theorem decimal_ne_nil (n : Nat) : decimal n ≠ [] := by
  unfold decimal
  split_ifs with h
  · simp
  · have : digitsRev n n ≠ [] := by
      obtain ⟨m, rfl⟩ : ∃ m, n = m + 1 := ⟨n - 1, by omega⟩
      simp [digitsRev]
    simpa using this

theorem decimal_length (k n : Nat) (hk : 1 ≤ k) (h : n < 10 ^ k) : (decimal n).length ≤ k := by
  unfold decimal
  split_ifs with h0
  · simpa using hk
  · rw [List.length_reverse]; exact digitsRev_length k n n h

theorem padded_val (w n : Nat) : valRev (padded w n).reverse = n := by
  unfold padded
  rw [List.reverse_append, List.reverse_replicate, valRev_append_zeros, decimal_val]

theorem padded_inj (w n m : Nat) (h : padded w n = padded w m) : n = m := by
  rw [← padded_val w n, h, padded_val]

theorem padded_digit (w n : Nat) : ∀ c ∈ padded w n, isDigit c := by
  intro c hc
  unfold padded at hc
  rcases List.mem_append.1 hc with h | h
  · rw [List.eq_of_mem_replicate h]; exact ⟨by decide, by decide⟩
  · exact decimal_digit n c h

theorem padded_ne_nil (w n : Nat) : padded w n ≠ [] := by
  unfold padded
  simp [decimal_ne_nil]

theorem padded_length (w n : Nat) (hw : 1 ≤ w) (h : n < 10 ^ w) : (padded w n).length = w := by
  unfold padded
  have := decimal_length w n hw h
  simp only [List.length_append, List.length_replicate]
  omega

theorem appendInt_natCast (n w : Nat) : appendInt (n : Int) w = padded w n := by
  unfold appendInt padded
  simp

theorem appendInt_nonneg (x : Int) (w : Nat) (h : 0 ≤ x) : appendInt x w = padded w x.natAbs := by
  unfold appendInt padded
  simp [not_lt.2 h]

theorem appendInt_neg (x : Int) (w : Nat) (h : x < 0) :
    appendInt x w = 45 :: padded w x.natAbs := by
  unfold appendInt padded
  simp [h]

/-! ## Lists cut at a separator -/

theorem cutAtFirst_eq_some_iff (sep : UInt8) (h a b : GoString) :
    cutAtFirst sep h = some (a, b) ↔ (h = a ++ sep :: b ∧ sep ∉ a) := by
  induction h generalizing a b with
  | nil => simp [cutAtFirst]
  | cons c cs ih =>
    unfold cutAtFirst
    split_ifs with hc
    · subst hc
      constructor
      · intro h; simp only [Option.some.injEq, Prod.mk.injEq] at h
        obtain ⟨rfl, rfl⟩ := h
        simp
      · rintro ⟨h1, h2⟩
        cases a with
        | nil => simp at h1; simp [h1]
        | cons x xs => 
          simp only [List.cons_append, List.cons.injEq] at h1
          exact absurd (by simp [h1.1]) h2
    · cases hcut : cutAtFirst sep cs with
      | none =>
        simp only [false_iff, reduceCtorEq]
        rintro ⟨h1, h2⟩
        cases a with
        | nil => simp at h1; exact hc h1.1
        | cons x xs =>
          simp only [List.cons_append, List.cons.injEq] at h1
          have := (ih xs b).2 ⟨h1.2, fun hm => h2 (List.mem_cons_of_mem _ hm)⟩
          rw [hcut] at this
          cases this
      | some p =>
        obtain ⟨a1, b1⟩ := p
        have h3 := (ih a1 b1).1 hcut
        simp only [Option.some.injEq, Prod.mk.injEq]
        constructor
        · rintro ⟨rfl, rfl⟩
          refine ⟨by rw [h3.1]; simp, ?_⟩
          intro hm
          rcases List.mem_cons.1 hm with h | h
          · exact hc h.symm
          · exact h3.2 h
        · rintro ⟨h1, h2⟩
          cases a with
          | nil => simp at h1; exact absurd h1.1 hc
          | cons x xs =>
            simp only [List.cons_append, List.cons.injEq] at h1
            have := (ih xs b).2 ⟨h1.2, fun hm => h2 (List.mem_cons_of_mem _ hm)⟩
            rw [hcut] at this
            simp only [Option.some.injEq, Prod.mk.injEq] at this
            rw [h1.1, this.1, this.2]
            exact ⟨rfl, rfl⟩

/-- Two ways of cutting a string at the first occurrence of `sep` agree. -/
theorem cut_unique (sep : UInt8) (a b a' b' : GoString) (h : a ++ sep :: b = a' ++ sep :: b')
    (ha : sep ∉ a) (ha' : sep ∉ a') : a = a' ∧ b = b' := by
  have h1 := (cutAtFirst_eq_some_iff sep (a ++ sep :: b) a b).2 ⟨rfl, ha⟩
  have h2 := (cutAtFirst_eq_some_iff sep (a ++ sep :: b) a' b').2 ⟨h, ha'⟩
  rw [h1] at h2
  simpa using h2

/-- A string splits in one way only into a prefix of bytes satisfying `P` and a
rest that starts with a byte not satisfying `P`. -/
theorem class_prefix_unique (P : UInt8 → Prop) :
    ∀ (l l' r r' : GoString), (∀ c ∈ l, P c) → (∀ c ∈ l', P c) →
      (∃ c tl, r = c :: tl ∧ ¬ P c) → (∃ c tl, r' = c :: tl ∧ ¬ P c) →
      l ++ r = l' ++ r' → l = l' ∧ r = r' := by
  intro l
  induction l with
  | nil =>
    intro l' r r' _ hl' hr hr' h
    cases l' with
    | nil => exact ⟨rfl, by simpa using h⟩
    | cons x xs =>
      obtain ⟨c, tl, rfl, hc⟩ := hr
      simp only [List.nil_append, List.cons_append, List.cons.injEq] at h
      exact absurd (h.1 ▸ hl' x (by simp)) hc
  | cons y ys ih =>
    intro l' r r' hl hl' hr hr' h
    cases l' with
    | nil =>
      obtain ⟨c, tl, rfl, hc⟩ := hr'
      simp only [List.nil_append, List.cons_append, List.cons.injEq] at h
      exact absurd (h.1 ▸ hl y (by simp)) hc
    | cons x xs =>
      simp only [List.cons_append, List.cons.injEq] at h
      obtain ⟨h1, h2⟩ := ih xs r r' (fun c hc => hl c (by simp [hc]))
        (fun c hc => hl' c (by simp [hc])) hr hr' h.2
      exact ⟨by rw [h.1, h1], h2⟩

/-! ## The calendar computation of `absDate` -/

theorem absDate_eq (abs : Nat) :
    absDate abs true =
      (((yearDay (abs / 86400)).1 : Int) + absoluteZeroYear,
        (monthDay (isLeap (((yearDay (abs / 86400)).1 : Int) + absoluteZeroYear))
          (yearDay (abs / 86400)).2).1,
        (monthDay (isLeap (((yearDay (abs / 86400)).1 : Int) + absoluteZeroYear))
          (yearDay (abs / 86400)).2).2,
        (yearDay (abs / 86400)).2) := by
  simp only [absDate, yearDay, monthDay, Bool.not_true, Bool.false_eq_true, if_false]
  split_ifs <;> rfl

theorem absDate_false_eq (abs : Nat) :
    absDate abs false =
      (((yearDay (abs / 86400)).1 : Int) + absoluteZeroYear, 0, 0, (yearDay (abs / 86400)).2) := by
  simp only [absDate, yearDay, Bool.not_false, if_true]

theorem cut400 (D a r1 : Nat) (ha : D / 146097 = a) (hr1 : D - 146097 * a = r1) :
    D = 146097 * a + r1 ∧ r1 < 146097 := by omega

theorem cut100 (r1 b0 b r2 : Nat) (h : r1 < 146097) (hb0 : r1 / 36524 = b0)
    (hb : b0 - b0 / 4 = b) (hr2 : r1 - 36524 * b = r2) :
    r1 = 36524 * b + r2 ∧ b ≤ 3 ∧ r2 ≤ 36524 ∧ (r2 = 36524 → b = 3) := by omega

theorem cut4 (r2 c r3 : Nat) (h : r2 ≤ 36524) (hc : r2 / 1461 = c) (hr3 : r2 - 1461 * c = r3) :
    r2 = 1461 * c + r3 ∧ c ≤ 24 ∧ r3 ≤ 1460 ∧ (c = 24 → r3 = 1460 → r2 = 36524) := by omega

theorem cut1 (r3 e0 e yd : Nat) (h : r3 ≤ 1460) (he0 : r3 / 365 = e0)
    (he : e0 - e0 / 4 = e) (hyd : r3 - 365 * e = yd) :
    r3 = 365 * e + yd ∧ e ≤ 3 ∧ yd ≤ 365 ∧ (yd = 365 → e = 3 ∧ r3 = 1460) := by omega

/-- The year/day split of `absDate` as a mixed-radix decomposition of the day
number into 400-, 100-, 4- and 1-year cycles. -/
theorem yearDay_spec (D : Nat) :
    ∃ a b c e yd, yearDay D = (400 * a + 100 * b + 4 * c + e, yd) ∧
      D = 146097 * a + 36524 * b + 1461 * c + 365 * e + yd ∧ b ≤ 3 ∧ c ≤ 24 ∧ e ≤ 3 ∧
      yd ≤ 365 ∧ (yd = 365 → e = 3 ∧ (c < 24 ∨ b = 3)) := by
  simp only [yearDay]
  generalize ha : D / 146097 = a
  generalize hr1 : D - 146097 * a = r1
  generalize hb0 : r1 / 36524 = b0
  generalize hb : b0 - b0 / 4 = b
  generalize hr2 : r1 - 36524 * b = r2
  generalize hc : r2 / 1461 = c
  generalize hr3 : r2 - 1461 * c = r3
  generalize he0 : r3 / 365 = e0
  generalize he : e0 - e0 / 4 = e
  generalize hyd : r3 - 365 * e = yd
  refine ⟨a, b, c, e, yd, rfl, ?_⟩
  obtain ⟨f1, f1'⟩ := cut400 D a r1 ha hr1
  obtain ⟨f2, f2a, f2b, f2c⟩ := cut100 r1 b0 b r2 f1' hb0 hb hr2
  obtain ⟨f3, f3a, f3b, f3c⟩ := cut4 r2 c r3 f2b hc hr3
  obtain ⟨f4, f4a, f4b, f4c⟩ := cut1 r3 e0 e yd f3b he0 he hyd
  clear ha hr1 hb0 hb hr2 hc hr3 he0 he hyd
  refine ⟨by omega, f2a, f3a, f4a, f4b, ?_⟩
  intro h
  obtain ⟨h1, h2⟩ := f4c h
  refine ⟨h1, ?_⟩
  by_cases hc24 : c = 24
  · right; exact f2c (f3c hc24 h2)
  · left; omega

theorem yearDay_inj (d d' : Nat) (h : yearDay d = yearDay d') : d = d' := by
  obtain ⟨a, b, c, e, yd, h1, h2, hb, hc, he, -⟩ := yearDay_spec d
  obtain ⟨a', b', c', e', yd', h1', h2', hb', hc', he', -⟩ := yearDay_spec d'
  rw [h1, h1'] at h
  simp only [Prod.mk.injEq] at h
  omega

/-- The day of the year is 365 only in a leap year. -/
theorem yearDay_leap (D : Nat) (h : (yearDay D).2 = 365) :
    isLeap (((yearDay D).1 : Int) + absoluteZeroYear) = true := by
  obtain ⟨a, b, c, e, yd, h1, h2, hb, hc, he, hyd, hl⟩ := yearDay_spec D
  rw [h1] at h ⊢
  simp only at h
  obtain ⟨he3, hcb⟩ := hl h
  simp only [isLeap, absoluteZeroYear, Bool.and_eq_true, Bool.or_eq_true, decide_eq_true_eq]
  push_cast
  omega

theorem yearDay_le (D : Nat) : (yearDay D).2 ≤ 365 := by
  obtain ⟨a, b, c, e, yd, h1, h2, hb, hc, he, hyd, hl⟩ := yearDay_spec D
  rw [h1]; exact hyd

theorem monthDay_spec (leap : Bool) (yday : Nat) (h : yday ≤ 365) (h' : yday = 365 → leap = true) :
    ydayOf leap (monthDay leap yday).1 (monthDay leap yday).2 = yday ∧
      1 ≤ (monthDay leap yday).1 ∧ (monthDay leap yday).1 ≤ 12 ∧
      1 ≤ (monthDay leap yday).2 ∧ (monthDay leap yday).2 ≤ 31 := by
  cases leap
  · have h2 : yday ≤ 364 := by
      rcases Nat.lt_or_ge yday 365 with h3 | h3
      · omega
      · exact absurd (h' (by omega)) (by simp)
    simp only [monthDay, ydayOf, Bool.false_and, Bool.false_eq_true, if_false]
    have hm : yday / 31 ≤ 11 := by omega
    generalize hmv : yday / 31 = m at hm
    interval_cases m <;> simp [daysBefore] <;> (try split_ifs) <;> (try simp) <;> omega
  · rcases Nat.lt_trichotomy yday 59 with h1 | h1 | h1
    · have e1 : ¬ (yday = 31 + 29 - 1) := by omega
      have e2 : ¬ (yday > 31 + 29 - 1) := by omega
      simp only [monthDay, ydayOf, Bool.true_and, decide_eq_true_eq, e1, e2, if_false]
      have hm : yday / 31 ≤ 1 := by omega
      generalize hmv : yday / 31 = m at hm
      interval_cases m <;> simp [daysBefore] <;> (try split_ifs) <;> (try simp) <;> omega
    · subst h1; decide
    · obtain ⟨d, rfl⟩ : ∃ d, yday = d + 1 := ⟨yday - 1, by omega⟩
      have e1 : ¬ (d + 1 = 31 + 29 - 1) := by omega
      have e2 : (d + 1 > 31 + 29 - 1) := by omega
      simp only [monthDay, ydayOf, Bool.true_and, decide_eq_true_eq, e1, e2, if_false, if_true,
        Nat.add_sub_cancel]
      have hm : d / 31 ≤ 11 := by omega
      have hm1 : 1 ≤ d / 31 := by omega
      generalize hmv : d / 31 = m at hm hm1
      interval_cases m <;> simp [daysBefore] <;> (try split_ifs) <;> (try simp) <;> omega

theorem monthDay_inj (leap : Bool) (yd yd' : Nat) (h : yd ≤ 365) (h' : yd' ≤ 365)
    (hl : yd = 365 → leap = true) (hl' : yd' = 365 → leap = true)
    (heq : monthDay leap yd = monthDay leap yd') : yd = yd' := by
  have h1 := (monthDay_spec leap yd h hl).1
  have h2 := (monthDay_spec leap yd' h' hl').1
  rw [heq] at h1
  rw [← h1, h2]

/-- The calendar date determines the day number: `absDate` is injective on
days. -/
theorem absDate_inj (abs abs' : Nat)
    (hy : (absDate abs true).1 = (absDate abs' true).1)
    (hm : (absDate abs true).2.1 = (absDate abs' true).2.1)
    (hd : (absDate abs true).2.2.1 = (absDate abs' true).2.2.1) :
    abs / 86400 = abs' / 86400 := by
  rw [absDate_eq, absDate_eq] at hy hm hd
  simp only at hy hm hd
  have hy' : (yearDay (abs / 86400)).1 = (yearDay (abs' / 86400)).1 := by omega
  apply yearDay_inj
  refine Prod.ext hy' ?_
  rw [← hy] at hm hd
  have hle := yearDay_le (abs / 86400)
  have hle' := yearDay_le (abs' / 86400)
  have hl := yearDay_leap (abs / 86400)
  have hl' := yearDay_leap (abs' / 86400)
  rw [← hy] at hl'
  exact monthDay_inj _ _ _ hle hle' hl hl' (Prod.ext hm hd)

theorem absDate_month_day_bounds (abs : Nat) :
    1 ≤ (absDate abs true).2.1 ∧ (absDate abs true).2.1 ≤ 12 ∧
      1 ≤ (absDate abs true).2.2.1 ∧ (absDate abs true).2.2.1 ≤ 31 := by
  rw [absDate_eq]
  exact (monthDay_spec _ _ (yearDay_le _) (yearDay_leap _)).2

theorem absClock_spec (abs : Nat) :
    (absClock abs).1 < 24 ∧ (absClock abs).2.1 < 60 ∧ (absClock abs).2.2 < 60 ∧
      abs % 86400 = (absClock abs).1 * 3600 + (absClock abs).2.1 * 60 + (absClock abs).2.2 := by
  simp only [absClock]
  omega

/-! ## `Time.Format` is injective -/

theorem Format_shape (t : Time) :
    t.Format = appendInt (absDate t.abs true).1 4 ++ 45 ::
      (padded 2 (absDate t.abs true).2.1 ++ 45 ::
        (padded 2 (absDate t.abs true).2.2.1 ++ 84 ::
          (padded 2 (absClock t.abs).1 ++ 58 ::
            (padded 2 (absClock t.abs).2.1 ++ 58 ::
              (padded 2 (absClock t.abs).2.2 ++ (appendNano t.nsec ++ zoneText t.offset)))))) := by
  unfold Time.Format zoneText
  simp only [appendInt_natCast]
  split_ifs <;> simp [List.append_assoc]

theorem zoneText_whole (o : Int) (ho : o % 60 = 0) (h0 : o ≠ 0) :
    zoneText o = (if o < 0 then 45 else 43) ::
      (padded 2 (o.natAbs / 60 / 60) ++ 58 :: padded 2 (o.natAbs / 60 % 60)) := by
  unfold zoneText
  rw [if_neg h0]
  have hdvd : (60 : Int) ∣ o := Int.dvd_of_emod_eq_zero ho
  have hz : Int.tdiv o 60 = o / 60 := Int.tdiv_eq_ediv_of_dvd hdvd
  rw [hz]
  by_cases hneg : o < 0
  · have h1 : o / 60 < 0 := by omega
    simp only [h1, hneg, if_true]
    have h2 : -(o / 60) = ((o.natAbs / 60 : Nat) : Int) := by omega
    have e1 : Int.tdiv ((o.natAbs / 60 : Nat) : Int) 60 = ((o.natAbs / 60 / 60 : Nat) : Int) :=
      (Int.ofNat_tdiv _ 60).symm
    have e2 : Int.tmod ((o.natAbs / 60 : Nat) : Int) 60 = ((o.natAbs / 60 % 60 : Nat) : Int) :=
      (Int.ofNat_tmod _ 60).symm
    rw [h2, e1, e2, appendInt_natCast, appendInt_natCast]
  · have h1 : ¬ (o / 60 < 0) := by omega
    simp only [h1, hneg, if_false]
    have h2 : (o / 60) = ((o.natAbs / 60 : Nat) : Int) := by omega
    have e1 : Int.tdiv ((o.natAbs / 60 : Nat) : Int) 60 = ((o.natAbs / 60 / 60 : Nat) : Int) :=
      (Int.ofNat_tdiv _ 60).symm
    have e2 : Int.tmod ((o.natAbs / 60 : Nat) : Int) 60 = ((o.natAbs / 60 % 60 : Nat) : Int) :=
      (Int.ofNat_tmod _ 60).symm
    rw [h2, e1, e2, appendInt_natCast, appendInt_natCast]

theorem not_mem_of_digits (sep : UInt8) (hs : ¬ isDigit sep) (l : GoString)
    (hl : ∀ c ∈ l, isDigit c) : sep ∉ l :=
  fun hm => hs (hl sep hm)

theorem zoneText_inj (o o' : Int) (ho : o % 60 = 0) (ho' : o' % 60 = 0)
    (h : zoneText o = zoneText o') : o = o' := by
  by_cases h0 : o = 0
  · by_cases h0' : o' = 0
    · rw [h0, h0']
    · rw [zoneText_whole o' ho' h0'] at h
      subst h0
      simp only [zoneText, if_true, List.cons.injEq] at h
      split_ifs at h <;> simp at h
  · by_cases h0' : o' = 0
    · rw [zoneText_whole o ho h0] at h
      subst h0'
      simp only [zoneText, if_true, List.cons.injEq] at h
      split_ifs at h <;> simp at h
    · rw [zoneText_whole o ho h0, zoneText_whole o' ho' h0'] at h
      simp only [List.cons.injEq] at h
      obtain ⟨hs, hrest⟩ := h
      have h58 : ¬ isDigit 58 := by unfold isDigit; decide
      obtain ⟨h1, h2⟩ := cut_unique 58 _ _ _ _ hrest
        (not_mem_of_digits 58 h58 _ (padded_digit _ _))
        (not_mem_of_digits 58 h58 _ (padded_digit _ _))
      have e1 := padded_inj _ _ _ h1
      have e2 := padded_inj _ _ _ h2
      have hsign : o < 0 ↔ o' < 0 := by
        split_ifs at hs with a b b
        · exact ⟨fun _ => b, fun _ => a⟩
        · simp at hs
        · simp at hs
        · exact ⟨fun x => absurd x a, fun x => absurd x b⟩
      omega

theorem dropZeros_suffix (l : GoString) : ∃ k, l = List.replicate k 48 ++ dropZeros l := by
  induction l with
  | nil => exact ⟨0, rfl⟩
  | cons c cs ih =>
    unfold dropZeros
    split_ifs with h
    · obtain ⟨k, hk⟩ := ih
      refine ⟨k + 1, ?_⟩
      rw [List.replicate_succ, List.cons_append, ← hk, h]
    · exact ⟨0, rfl⟩

theorem dropZeros_inj (a b : GoString) (hlen : a.length = b.length)
    (h : dropZeros a = dropZeros b) : a = b := by
  obtain ⟨k, hk⟩ := dropZeros_suffix a
  obtain ⟨k', hk'⟩ := dropZeros_suffix b
  have h1 : a.length = k + (dropZeros a).length := by
    conv_lhs => rw [hk]
    simp
  have h2 : b.length = k' + (dropZeros b).length := by
    conv_lhs => rw [hk']
    simp
  have hkk : k = k' := by rw [h] at h1; omega
  rw [hk, hk', h, hkk]

theorem dropZeros_mem (l : GoString) : ∀ c ∈ dropZeros l, c ∈ l := by
  intro c hc
  obtain ⟨k, hk⟩ := dropZeros_suffix l
  rw [hk]
  exact List.mem_append_right _ hc

theorem appendNano_bytes (n : Nat) : ∀ c ∈ appendNano n, isFracByte c := by
  unfold appendNano
  split_ifs with h
  · simp
  · intro c hc
    rcases List.mem_cons.1 hc with rfl | hc
    · exact Or.inl rfl
    · right
      have := dropZeros_mem _ c (List.mem_reverse.1 hc)
      rw [appendInt_natCast] at this
      exact padded_digit 9 n c (List.mem_reverse.1 this)

theorem appendNano_inj (n n' : Nat) (hn : n < 1000000000) (hn' : n' < 1000000000)
    (h : appendNano n = appendNano n') : n = n' := by
  unfold appendNano at h
  by_cases h0 : n = 0
  · by_cases h0' : n' = 0
    · rw [h0, h0']
    · rw [if_pos h0, if_neg h0'] at h
      simp at h
  · by_cases h0' : n' = 0
    · rw [if_neg h0, if_pos h0'] at h
      simp at h
    · rw [if_neg h0, if_neg h0'] at h
      simp only [List.cons.injEq, true_and, List.reverse_inj, appendInt_natCast] at h
      have hl : (padded 9 n).reverse.length = (padded 9 n').reverse.length := by
        rw [List.length_reverse, List.length_reverse,
          padded_length 9 n (by norm_num) (by norm_num; exact hn),
          padded_length 9 n' (by norm_num) (by norm_num; exact hn')]
      have := dropZeros_inj _ _ hl h
      exact padded_inj 9 _ _ (List.reverse_injective this)

theorem zoneText_head (o : Int) : ∃ c tl, zoneText o = c :: tl ∧ ¬ isFracByte c := by
  unfold zoneText
  split_ifs
  · exact ⟨_, _, rfl, by unfold isFracByte isDigit; decide⟩
  · exact ⟨_, _, rfl, by unfold isFracByte isDigit; decide⟩
  · exact ⟨_, _, rfl, by unfold isFracByte isDigit; decide⟩

/-- The year field followed by the date separator determines the year. -/
theorem appendInt_sep_inj (y y' : Int) (w : Nat) (R R' : GoString)
    (h : appendInt y w ++ 45 :: R = appendInt y' w ++ 45 :: R') : y = y' ∧ R = R' := by
  have h45 : ¬ isDigit 45 := by unfold isDigit; decide
  have hcut : ∀ n n' : Nat, padded w n ++ 45 :: R = padded w n' ++ 45 :: R' → n = n' ∧ R = R' := by
    intro n n' hh
    obtain ⟨h1, h2⟩ := cut_unique 45 _ _ _ _ hh
      (not_mem_of_digits 45 h45 _ (padded_digit _ _))
      (not_mem_of_digits 45 h45 _ (padded_digit _ _))
    exact ⟨padded_inj _ _ _ h1, h2⟩
  have hhead : ∀ n : Nat, ∀ X Y : GoString, 45 :: X ≠ padded w n ++ Y := by
    intro n X Y hh
    have hne := padded_ne_nil w n
    cases hp : padded w n with
    | nil => exact hne hp
    | cons c cs =>
      rw [hp] at hh
      simp only [List.cons_append, List.cons.injEq] at hh
      have := padded_digit w n c (by rw [hp]; simp)
      rw [← hh.1] at this
      exact h45 this
  by_cases hy : y < 0
  · by_cases hy' : y' < 0
    · rw [appendInt_neg y w hy, appendInt_neg y' w hy'] at h
      simp only [List.cons_append, List.cons.injEq, true_and] at h
      obtain ⟨h1, h2⟩ := hcut _ _ h
      exact ⟨by omega, h2⟩
    · rw [appendInt_neg y w hy, appendInt_nonneg y' w (by omega)] at h
      exact absurd h (hhead _ _ _)
  · by_cases hy' : y' < 0
    · rw [appendInt_nonneg y w (by omega), appendInt_neg y' w hy'] at h
      exact absurd h.symm (hhead _ _ _)
    · rw [appendInt_nonneg y w (by omega), appendInt_nonneg y' w (by omega)] at h
      obtain ⟨h1, h2⟩ := hcut _ _ h
      exact ⟨by omega, h2⟩

/-- A two-digit field followed by anything determines its value. -/
theorem two_digit_inj (a b : Nat) (ha : a < 100) (hb : b < 100) (X Y : GoString)
    (h : padded 2 a ++ X = padded 2 b ++ Y) : a = b ∧ X = Y := by
  have hl : (padded 2 a).length = (padded 2 b).length := by
    rw [padded_length 2 a (by norm_num) (by norm_num; exact ha),
      padded_length 2 b (by norm_num) (by norm_num; exact hb)]
  obtain ⟨h1, h2⟩ := List.append_inj h hl
  exact ⟨padded_inj _ _ _ h1, h2⟩

/-- The RFC 3339 rendering with nanoseconds determines the time value. -/
theorem Format_inj (t t' : Time) (hw : t.wellFormed) (hw' : t'.wellFormed)
    (h : t.Format = t'.Format) : t = t' := by
  rw [Format_shape, Format_shape] at h
  obtain ⟨hb1, hb2, hb3, hb4⟩ := absDate_month_day_bounds t.abs
  obtain ⟨hb1', hb2', hb3', hb4'⟩ := absDate_month_day_bounds t'.abs
  obtain ⟨hc1, hc2, hc3, hc4⟩ := absClock_spec t.abs
  obtain ⟨hc1', hc2', hc3', hc4'⟩ := absClock_spec t'.abs
  obtain ⟨hy, h⟩ := appendInt_sep_inj _ _ _ _ _ h
  obtain ⟨hmo, h⟩ := two_digit_inj _ _ (by omega) (by omega) _ _ h
  simp only [List.cons.injEq, true_and] at h
  obtain ⟨hd, h⟩ := two_digit_inj _ _ (by omega) (by omega) _ _ h
  simp only [List.cons.injEq, true_and] at h
  obtain ⟨hh, h⟩ := two_digit_inj _ _ (by omega) (by omega) _ _ h
  simp only [List.cons.injEq, true_and] at h
  obtain ⟨hmi, h⟩ := two_digit_inj _ _ (by omega) (by omega) _ _ h
  simp only [List.cons.injEq, true_and] at h
  obtain ⟨hs, h⟩ := two_digit_inj _ _ (by omega) (by omega) _ _ h
  obtain ⟨hnano, hzone⟩ := class_prefix_unique isFracByte _ _ _ _ (appendNano_bytes _)
    (appendNano_bytes _) (zoneText_head _) (zoneText_head _) h
  obtain ⟨w1, w2, w3, w4⟩ := hw
  obtain ⟨w1', w2', w3', w4'⟩ := hw'
  have hn := appendNano_inj _ _ w3 w3' hnano
  have ho := zoneText_inj _ _ w4 w4' hzone
  have hdays := absDate_inj _ _ hy hmo hd
  have habs : t.abs = t'.abs := by
    have e1 := Nat.div_add_mod t.abs 86400
    have e2 := Nat.div_add_mod t'.abs 86400
    rw [hh, hmi, hs] at hc4
    omega
  have hsec : t.sec = t'.sec := by
    unfold Time.abs at habs
    rw [ho] at habs
    omega
  cases t; cases t'
  simp only at hsec hn ho
  rw [hsec, hn, ho]

/-! ## `path.Clean` and `path.Join` on the storage path -/

theorem splitOn_ne_nil (sep : UInt8) (s : GoString) : splitOn sep s ≠ [] := by
  cases s with
  | nil => simp [splitOn]
  | cons c cs =>
    unfold splitOn
    split_ifs
    · simp
    · split <;> simp

theorem splitOn_of_not_mem (sep : UInt8) (f : GoString) (h : sep ∉ f) : splitOn sep f = [f] := by
  induction f with
  | nil => rfl
  | cons c cs ih =>
    have hc : c ≠ sep := fun e => h (by simp [e])
    have hcs : sep ∉ cs := fun e => h (by simp [e])
    unfold splitOn
    rw [if_neg hc, ih hcs]

theorem splitOn_cons (sep c : UInt8) (cs : GoString) :
    splitOn sep (c :: cs) =
      if c = sep then [] :: splitOn sep cs
      else match splitOn sep cs with
        | [] => [[c]]
        | x :: xs => (c :: x) :: xs := by
  conv_lhs => rw [splitOn]
  all_goals (split_ifs <;> first | rfl | (cases splitOn sep cs <;> rfl))

theorem splitOn_append (sep : UInt8) (a b : GoString) :
    splitOn sep (a ++ sep :: b) = splitOn sep a ++ splitOn sep b := by
  induction a with
  | nil => rw [List.nil_append, splitOn_cons, if_pos rfl]; rfl
  | cons c cs ih =>
    rw [List.cons_append, splitOn_cons, splitOn_cons sep c cs, ih]
    split_ifs with hc
    · rfl
    · cases hs : splitOn sep cs with
      | nil => exact absurd hs (splitOn_ne_nil sep cs)
      | cons x xs => rfl

theorem splitOn_not_mem (sep : UInt8) (s : GoString) : ∀ c ∈ splitOn sep s, sep ∉ c := by
  induction s with
  | nil => intro c hc; simp [splitOn] at hc; subst hc; simp
  | cons x xs ih =>
    intro c hc
    unfold splitOn at hc
    split_ifs at hc with hx
    · rcases List.mem_cons.1 hc with rfl | h
      · simp
      · exact ih c h
    · cases hs : splitOn sep xs with
      | nil => exact absurd hs (splitOn_ne_nil sep xs)
      | cons y ys =>
        rw [hs] at hc ih
        rcases List.mem_cons.1 hc with rfl | h
        · intro hm
          rcases List.mem_cons.1 hm with e | e
          · exact hx e.symm
          · exact ih y (by simp) e
        · exact ih c (by simp [h])

theorem cleanStep_plain (rooted : Bool) (K : List GoString) (c : GoString)
    (h : plainComponent c) : cleanStep rooted K c = K ++ [c] := by
  unfold cleanStep
  rw [if_neg (by rintro (e | e); exact h.1 e; exact h.2.1 e), if_neg h.2.2]

theorem cleanStep_good (rooted : Bool) (K : List GoString) (c : GoString)
    (hK : ∀ x ∈ K, goodComponent x) (hc : (47 : UInt8) ∉ c) :
    ∀ x ∈ cleanStep rooted K c, goodComponent x := by
  have hdd : goodComponent [46, 46] := ⟨by simp, by simp, by decide⟩
  have hsnoc : ∀ y, goodComponent y → ∀ x ∈ K ++ [y], goodComponent x := by
    intro y hy x hx
    rcases List.mem_append.1 hx with h | h
    · exact hK x h
    · simp only [List.mem_singleton] at h; subst h; exact hy
  unfold cleanStep
  by_cases h1 : c = [] ∨ c = [46]
  · rw [if_pos h1]; exact hK
  · rw [if_neg h1]
    by_cases h2 : c = [46, 46]
    · rw [if_pos h2]
      subst h2
      cases hl : K.getLast? with
      | none =>
        cases rooted
        · exact hsnoc _ hdd
        · exact hK
      | some l =>
        by_cases h3 : l = [46, 46]
        · simp only [h3, if_true]
          exact hsnoc _ hdd
        · simp only [h3, if_false]
          intro x hx
          exact hK x (List.mem_of_mem_dropLast hx)
    · rw [if_neg h2]
      simp only [not_or] at h1
      exact hsnoc c ⟨h1.1, h1.2, hc⟩

theorem foldl_cleanStep_good (rooted : Bool) :
    ∀ (comps : List GoString) (K : List GoString), (∀ x ∈ K, goodComponent x) →
      (∀ c ∈ comps, (47 : UInt8) ∉ c) →
      ∀ x ∈ comps.foldl (cleanStep rooted) K, goodComponent x := by
  intro comps
  induction comps with
  | nil => intro K hK _; exact hK
  | cons c cs ih =>
    intro K hK hc
    simp only [List.foldl_cons]
    exact ih _ (cleanStep_good rooted K c hK (hc c (by simp)))
      (fun x hx => hc x (by simp [hx]))

theorem joinSlash_cons (c : GoString) (K : List GoString) (hK : K ≠ []) :
    joinSlash (c :: K) = c ++ 47 :: joinSlash K := by
  cases K with
  | nil => exact absurd rfl hK
  | cons x xs => rfl

theorem joinSlash_append (K L : List GoString) (hK : K ≠ []) (hL : L ≠ []) :
    joinSlash (K ++ L) = joinSlash K ++ 47 :: joinSlash L := by
  induction K with
  | nil => exact absurd rfl hK
  | cons c cs ih =>
    by_cases hcs : cs = []
    · subst hcs
      simp only [List.singleton_append]
      rw [joinSlash_cons c L hL]
      rfl
    · rw [List.cons_append, joinSlash_cons c (cs ++ L) (by simp [hcs]), ih hcs,
        joinSlash_cons c cs hcs]
      simp

theorem joinSlash_good_head (K : List GoString) (hK : K ≠ [])
    (hg : ∀ x ∈ K, goodComponent x) :
    joinSlash K ≠ [] ∧ joinSlash K ≠ [46] ∧ joinSlash K ≠ [47] := by
  cases K with
  | nil => exact absurd rfl hK
  | cons c cs =>
    obtain ⟨g1, g2, g3⟩ := hg c (by simp)
    by_cases hcs : cs = []
    · subst hcs
      refine ⟨g1, g2, ?_⟩
      intro e
      simp only [joinSlash] at e
      exact g3 (by rw [e]; simp)
    · rw [joinSlash_cons c cs hcs]
      cases c with
      | nil => exact absurd rfl g1
      | cons x xs => simp

/-- The cleaned form of `<p>/<f>` for a plain, slash-free last component `f`:
the components kept from `p`, then `f`. -/
theorem foldl_cleanStep_snoc (rooted : Bool) (p f : GoString) (hf : plainComponent f)
    (hs : (47 : UInt8) ∉ f) :
    (splitOn 47 (p ++ 47 :: f)).foldl (cleanStep rooted) [] =
      (splitOn 47 p).foldl (cleanStep rooted) [] ++ [f] := by
  rw [splitOn_append, splitOn_of_not_mem 47 f hs, List.foldl_append]
  simp only [List.foldl_cons, List.foldl_nil]
  exact cleanStep_plain rooted _ f hf

/-! ## The storage path -/

theorem appendInt_bytes (x : Int) (w : Nat) : ∀ c ∈ appendInt x w, c = 45 ∨ isDigit c := by
  intro c hc
  by_cases hx : x < 0
  · rw [appendInt_neg x w hx] at hc
    rcases List.mem_cons.1 hc with h | h
    · exact Or.inl h
    · exact Or.inr (padded_digit _ _ c h)
  · rw [appendInt_nonneg x w (by omega)] at hc
    exact Or.inr (padded_digit _ _ c hc)

theorem formatInt_bytes (x : Int) : ∀ c ∈ formatInt x, c = 45 ∨ isDigit c := by
  intro c hc
  unfold formatInt at hc
  rcases List.mem_append.1 hc with h | h
  · split_ifs at h
    · simp only [List.mem_singleton] at h; exact Or.inl h
    · simp at h
  · exact Or.inr (decimal_digit _ c h)

theorem not_slash_of_sign_or_digit (c : UInt8) (h : c = 45 ∨ isDigit c) : c ≠ 47 := by
  rcases h with h | h
  · rw [h]; decide
  · intro e; rw [e] at h; revert h; unfold isDigit; decide

theorem weekDir_plain (t : Time) : plainComponent (weekDir t) ∧ (47 : UInt8) ∉ weekDir t := by
  have hmem : (45 : UInt8) ∈ weekDir t := by
    unfold weekDir; simp
  refine ⟨⟨?_, ?_, ?_⟩, ?_⟩
  · intro e; rw [e] at hmem; simp at hmem
  · intro e; rw [e] at hmem; revert hmem; decide
  · intro e; rw [e] at hmem; revert hmem; decide
  · intro hm
    unfold weekDir at hm
    simp only [List.append_assoc, List.singleton_append, List.mem_append, List.mem_cons] at hm
    rcases hm with h | h | h
    · exact not_slash_of_sign_or_digit _ (formatInt_bytes _ _ h) rfl
    · revert h; decide
    · exact not_slash_of_sign_or_digit _ (formatInt_bytes _ _ h) rfl

theorem zoneText_bytes (o : Int) : ∀ c ∈ zoneText o, c ≠ 47 := by
  intro c hc
  unfold zoneText at hc
  split_ifs at hc
  · simp only [List.mem_singleton] at hc; rw [hc]; decide
  · simp only [List.mem_cons, List.mem_append] at hc
    rcases hc with h | h | h | h
    · rw [h]; decide
    · exact not_slash_of_sign_or_digit _ (appendInt_bytes _ _ c h)
    · rw [h]; decide
    · exact not_slash_of_sign_or_digit _ (appendInt_bytes _ _ c h)
  · simp only [List.mem_cons, List.mem_append] at hc
    rcases hc with h | h | h | h
    · rw [h]; decide
    · exact not_slash_of_sign_or_digit _ (appendInt_bytes _ _ c h)
    · rw [h]; decide
    · exact not_slash_of_sign_or_digit _ (appendInt_bytes _ _ c h)

theorem Format_bytes (t : Time) : ∀ c ∈ t.Format, c ≠ 47 := by
  intro c hc
  rw [Format_shape] at hc
  have hd : ∀ w n, c ∈ padded w n → c ≠ 47 :=
    fun w n h => not_slash_of_sign_or_digit _ (Or.inr (padded_digit w n c h))
  simp only [List.mem_cons, List.mem_append] at hc
  rcases hc with h | h | h | h | h | h | h | h | h | h | h | h | h
  · exact not_slash_of_sign_or_digit _ (appendInt_bytes _ _ c h)
  · rw [h]; decide
  · exact hd _ _ h
  · rw [h]; decide
  · exact hd _ _ h
  · rw [h]; decide
  · exact hd _ _ h
  · rw [h]; decide
  · exact hd _ _ h
  · rw [h]; decide
  · exact hd _ _ h
  · rcases appendNano_bytes _ c h with e | e
    · rw [e]; decide
    · exact not_slash_of_sign_or_digit _ (Or.inr e)
  · exact zoneText_bytes _ c h

theorem fileName_plain (t : Time) : plainComponent (fileName t) ∧ (47 : UInt8) ∉ fileName t := by
  have hlen : 5 ≤ (fileName t).length := by
    unfold fileName; simp [ascii]
  refine ⟨⟨?_, ?_, ?_⟩, ?_⟩
  · intro e; rw [e] at hlen; simp at hlen
  · intro e; rw [e] at hlen; simp at hlen
  · intro e; rw [e] at hlen; simp at hlen
  · intro hm
    unfold fileName at hm
    rcases List.mem_append.1 hm with h | h
    · exact Format_bytes t _ h rfl
    · revert h; decide

theorem metricsDir_plain :
    plainComponent (ascii "UserModelMetrics") ∧ (47 : UInt8) ∉ ascii "UserModelMetrics" := by
  unfold plainComponent; decide

/-- `path.Join` of a data root and three plain components. -/
theorem Join_four (d U W F : GoString)
    (hU : plainComponent U ∧ (47 : UInt8) ∉ U) (hW : plainComponent W ∧ (47 : UInt8) ∉ W)
    (hF : plainComponent F ∧ (47 : UInt8) ∉ F) :
    Join [d, U, W, F] = pathBase d ++ (U ++ 47 :: (W ++ 47 :: F)) := by
  have hUne : U ≠ [] := hU.1.1
  have hsum : ¬ ((List.map List.length [d, U, W, F]).sum = 0) := by
    have : 0 < U.length := List.length_pos.2 hUne
    simp only [List.map_cons, List.map_nil, List.sum_cons, List.sum_nil]
    omega
  unfold Join
  rw [if_neg hsum]
  by_cases hd : d = []
  · subst hd
    have hbuf : (List.foldl (fun buf e =>
        if buf.length > 0 ∨ e ≠ [] then (if buf.length > 0 then buf ++ [47] else buf) ++ e
        else buf) [] [[], U, W, F]) = (U ++ 47 :: W) ++ 47 :: F := by
      have : 0 < U.length := List.length_pos.2 hUne
      simp [hUne, this]
    rw [hbuf]
    have hne : (U ++ 47 :: W) ++ 47 :: F ≠ [] := by simp
    have hroot : decide (((U ++ 47 :: W) ++ 47 :: F).head? = some 47) = false := by
      cases U with
      | nil => exact absurd rfl hUne
      | cons u us =>
        have : u ≠ 47 := fun e => hU.2 (by simp [e])
        simp [this]
    unfold Clean
    rw [if_neg hne]
    simp only [hroot]
    rw [foldl_cleanStep_snoc false _ F hF.1 hF.2, foldl_cleanStep_snoc false _ W hW.1 hW.2,
      splitOn_of_not_mem 47 U hU.2]
    simp only [List.foldl_cons, List.foldl_nil, cleanStep_plain false [] U hU.1]
    simp [pathBase, joinSlash]
  · have hlen : 0 < d.length := List.length_pos.2 hd
    have hbuf : (List.foldl (fun buf e =>
        if buf.length > 0 ∨ e ≠ [] then (if buf.length > 0 then buf ++ [47] else buf) ++ e
        else buf) [] [d, U, W, F]) = ((d ++ 47 :: U) ++ 47 :: W) ++ 47 :: F := by
      simp [hd, hlen]
    rw [hbuf]
    have hne : ((d ++ 47 :: U) ++ 47 :: W) ++ 47 :: F ≠ [] := by simp
    have hroot : decide ((((d ++ 47 :: U) ++ 47 :: W) ++ 47 :: F).head? = some 47)
        = decide (d.head? = some 47) := by
      cases d with
      | nil => exact absurd rfl hd
      | cons x xs => simp
    unfold Clean
    rw [if_neg hne]
    simp only [hroot]
    rw [foldl_cleanStep_snoc _ _ F hF.1 hF.2, foldl_cleanStep_snoc _ _ W hW.1 hW.2,
      foldl_cleanStep_snoc _ _ U hU.1 hU.2]
    generalize hK : (splitOn 47 d).foldl (cleanStep (decide (d.head? = some 47))) [] = K
    have hgood : ∀ x ∈ K, goodComponent x := by
      rw [← hK]
      exact foldl_cleanStep_good _ _ _ (by simp) (splitOn_not_mem 47 d)
    have hCd : Clean d = (if ((if decide (d.head? = some 47) = true then [47] else []) ++ joinSlash K) = []
        then [46] else (if decide (d.head? = some 47) = true then [47] else []) ++ joinSlash K) := by
      unfold Clean
      rw [if_neg hd]
      simp only [hK]
    have hUWF : joinSlash [U, W, F] = U ++ 47 :: (W ++ 47 :: F) := rfl
    unfold pathBase
    rw [hCd]
    by_cases hKe : K = []
    · subst hKe
      by_cases hr : d.head? = some 47
      · simp [hr, hd, joinSlash]
      · simp [hr, hd, joinSlash]
    · obtain ⟨j1, j2, j3⟩ := joinSlash_good_head K hKe hgood
      have hjoin : joinSlash (K ++ [U] ++ [W] ++ [F]) = joinSlash K ++ 47 :: (U ++ 47 :: (W ++ 47 :: F)) := by
        have : K ++ [U] ++ [W] ++ [F] = K ++ [U, W, F] := by simp
        rw [this, joinSlash_append K _ hKe (by simp), hUWF]
      rw [hjoin]
      by_cases hr : d.head? = some 47
      · simp only [hr, decide_True, if_true]
        have a1 : ([47] ++ joinSlash K : GoString) ≠ [] := by simp
        have a2 : ([47] ++ joinSlash K : GoString) ≠ [46] := by simp
        have a3 : ([47] ++ joinSlash K : GoString) ≠ [47] := by simp [j1]
        rw [if_neg a1, if_neg (not_or.2 ⟨hd, a2⟩), if_neg a3]
        simp
      · simp only [hr, decide_False, Bool.false_eq_true, if_false, List.nil_append]
        rw [if_neg j1, if_neg (not_or.2 ⟨hd, j2⟩), if_neg j3]
        simp

theorem outPath_eq (d : GoString) (t : Time) :
    outPath d t = pathBase d ++
      (ascii "UserModelMetrics" ++ 47 :: (weekDir t ++ 47 :: fileName t)) :=
  Join_four d _ _ _ metricsDir_plain (weekDir_plain t) (fileName_plain t)

/-! ## Claims on the storage path -/

/-- C4 (as amended). For every data root `d` and timestamp `t` the path computed
in `saveUserModelMetrics` is `<base>UserModelMetrics/<isoYear>-<isoWeek>/<RFC3339Nano>.json`,
where the week directory joins the ISO year and week in plain decimal by a
hyphen, the file name is the nanosecond RFC 3339 rendering of `t` followed by
`.json`, and `<base>` is the cleaned data root with a slash (empty for an
empty root or one that cleans to `.`, `/` for one that cleans to `/`); for a
data root already in cleaned form, other than `/` and `.`, the path is
literally `<d>/UserModelMetrics/<isoYear>-<isoWeek>/<RFC3339Nano>.json`. -/
theorem outPath_layout (d : GoString) (t : Time) :
    outPath d t =
        pathBase d ++ (ascii "UserModelMetrics" ++ 47 :: (weekDir t ++ 47 :: fileName t)) ∧
      weekDir t = formatInt t.ISOWeek.1 ++ 45 :: formatInt (t.ISOWeek.2 : Int) ∧
      fileName t = t.Format ++ ascii ".json" ∧
      (Clean d = d → d ≠ [47] → d ≠ [46] →
        outPath d t = d ++ ascii "/UserModelMetrics/" ++
          (formatInt t.ISOWeek.1 ++ 45 :: formatInt (t.ISOWeek.2 : Int)) ++ 47 ::
          (t.Format ++ ascii ".json")) := by
  refine ⟨outPath_eq d t, by simp [weekDir], rfl, ?_⟩
  intro hc h1 h2
  rw [outPath_eq]
  have hne : d ≠ [] := by
    intro e
    rw [e] at hc
    revert hc
    decide
  unfold pathBase
  rw [hc, if_neg (not_or.2 ⟨hne, h2⟩), if_neg h1]
  have : ascii "/UserModelMetrics/" = 47 :: (ascii "UserModelMetrics" ++ [47]) := by decide
  rw [this]
  simp [weekDir, fileName]

/-- C4 (counterexample). With an empty data root the path is the relative path
`UserModelMetrics/2025-1/2024-12-31T10:00:00Z.json`, not
`/UserModelMetrics/...`; with the data root `data/` it is
`data/UserModelMetrics/...`, not `data//UserModelMetrics/...`. -/
theorem outPath_literal_counterexample :
    outPath (ascii "") ⟨1735639200, 0, 0⟩
        = ascii "UserModelMetrics/2025-1/2024-12-31T10:00:00Z.json" ∧
      outPath (ascii "") ⟨1735639200, 0, 0⟩ ≠
        ascii "" ++ ascii "/UserModelMetrics/" ++ weekDir ⟨1735639200, 0, 0⟩ ++ ascii "/" ++
          fileName ⟨1735639200, 0, 0⟩ ∧
      outPath (ascii "data/") ⟨1735639200, 0, 0⟩ ≠
        ascii "data/" ++ ascii "/UserModelMetrics/" ++ weekDir ⟨1735639200, 0, 0⟩ ++ ascii "/" ++
          fileName ⟨1735639200, 0, 0⟩ := by
  decide

theorem isoWeek_of_day (t : Time) (hK : t.abs / 86400 = 106751991093182) :
    t.ISOWeek = (2025, 1) := by
  have habs : t.abs < 18446744073709551616 := by
    unfold Time.abs; omega
  have hw : absWeekday t.abs = 2 := by
    unfold absWeekday; omega
  unfold Time.ISOWeek
  simp only [hw, absDate_false_eq]
  have hd : ((t.abs + (((if (4 : Int) - ((2 : Nat) : Int) = 4 then -3 else 4 - ((2 : Nat) : Int))
      % 18446744073709551616).toNat) * 86400) % 18446744073709551616) / 86400
      = 106751991093184 := by
    have : (((if (4 : Int) - ((2 : Nat) : Int) = 4 then -3 else 4 - ((2 : Nat) : Int))
      % 18446744073709551616).toNat) = 2 := by decide
    rw [this]
    omega
  rw [hd]
  decide

/-- C5 (as amended). For every timestamp whose calendar date is 2024-12-31, the
week partition computed for the storage path is ISO year 2025, week 1, and
the partition subdirectory is named `2025-1` (the week number is not
zero-padded). -/
theorem weekDir_of_2024_12_31 (t : Time) (h : t.Date = (2024, 12, 31)) :
    t.ISOWeek = (2025, 1) ∧ weekDir t = ascii "2025-1" := by
  have hK : t.abs / 86400 = 106751991093182 := by
    unfold Time.Date at h
    simp only [Prod.mk.injEq] at h
    have h0 : absDate (106751991093182 * 86400) true = (2024, 12, 31, 365) := by decide
    have := absDate_inj t.abs (106751991093182 * 86400) (by rw [h0]; exact h.1)
      (by rw [h0]; exact h.2.1) (by rw [h0]; exact h.2.2)
    omega
  have hw := isoWeek_of_day t hK
  refine ⟨hw, ?_⟩
  unfold weekDir
  rw [hw]
  decide

theorem weekDir_of_2024_12_31_witness :
    Time.ISOWeek ⟨1735685999, 999999999, 3600⟩ = (2025, 1) ∧
      weekDir ⟨1735685999, 999999999, 3600⟩ = ascii "2025-1" :=
  weekDir_of_2024_12_31 ⟨1735685999, 999999999, 3600⟩ (by decide)

/-- C5 (counterexample). At 2024-12-31T10:00:00Z the calendar date is
2024-12-31 and the partition subdirectory is `2025-1`, not `2025-01`. -/
theorem weekDir_padded_counterexample :
    Time.Date ⟨1735639200, 0, 0⟩ = (2024, 12, 31) ∧
      weekDir ⟨1735639200, 0, 0⟩ = ascii "2025-1" ∧
      weekDir ⟨1735639200, 0, 0⟩ ≠ ascii "2025-01" := by
  decide

/-- C6. For every data root, two well-formed timestamps (an `int64` second
count, a nanosecond below one second, a zone offset of whole minutes) with the
same storage path are the same timestamp: distinct capture timestamps get
distinct paths. -/
theorem outPath_injective (d : GoString) (t t' : Time) (hw : t.wellFormed)
    (hw' : t'.wellFormed) (hne : t ≠ t') : outPath d t ≠ outPath d t' := by
  intro h
  apply hne
  rw [outPath_eq, outPath_eq] at h
  have h1 := List.append_cancel_left (List.append_cancel_left h)
  simp only [List.cons.injEq, true_and] at h1
  obtain ⟨_, h2⟩ := cut_unique 47 _ _ _ _ h1 (weekDir_plain t).2 (weekDir_plain t').2
  unfold fileName at h2
  exact Format_inj t t' hw hw' (List.append_cancel_right h2)

theorem outPath_injective_witness :
    outPath (ascii "data") ⟨1735639200, 1, 3600⟩ ≠ outPath (ascii "data") ⟨1735639200, 2, 3600⟩ :=
  outPath_injective (ascii "data") ⟨1735639200, 1, 3600⟩ ⟨1735639200, 2, 3600⟩
    (by decide) (by decide) (by decide)

/-- C1 (the code at the failing input). With the secret `s3cret` configured, a
request with `Authorization: Bearer wrong` and the body `{"model":"m"}` is
refused by `authRequestHandle` (status 401), but `userModelMetricHandle`
never calls it: the handler writes no status (the client gets 200) and
stores the record. -/
theorem userModelMetricHandle_skips_authorization :
    (Server.authRequestHandle sampleExternal.lowerTab ⟨ascii "s3cret", ascii "data"⟩
        ResponseWriter.fresh (ascii "Bearer wrong")).2 = false ∧
      (Server.authRequestHandle sampleExternal.lowerTab ⟨ascii "s3cret", ascii "data"⟩
        ResponseWriter.fresh (ascii "Bearer wrong")).1.status = some 401 ∧
      (Server.userModelMetricHandle sampleExternal ⟨ascii "s3cret", ascii "data"⟩
        ⟨⟨1735639200, 0, 0⟩, StatResult.notExist, none, none⟩ ⟨[], []⟩ ResponseWriter.fresh
        ⟨ascii "Bearer wrong", ascii "\x7b\"model\":\"m\"\x7d", 13, ReadError.EOF⟩)
        = (ResponseWriter.fresh,
            ⟨[(ascii "data/UserModelMetrics/2025-1/2024-12-31T10:00:00Z.json",
                [(ascii "created_at", OutValue.str (ascii "0001-01-01T00:00:00Z")),
                 (ascii "model", OutValue.str (ascii "m"))])],
             [ascii "data/UserModelMetrics/2025-1"]⟩) ∧
      ResponseWriter.fresh.finalStatus = 200 := by
  decide

/-- C8. When the first read of the body yields zero bytes (as for an empty
body) or fails with an error other than end-of-stream, the handler answers
400 with the line `Failed to read payload` and leaves the world as it was,
whatever the payload and the parser are. -/
theorem userModelMetricHandle_read_failure (ext : External) (s : Server) (env : Env)
    (world : World) (request : Request)
    (h : (request.Read (2 * 1024)).1 = 0 ∨ ∃ msg, request.readErr = ReadError.other msg) :
    s.userModelMetricHandle ext env world ResponseWriter.fresh request =
        (⟨some 400, ascii "Failed to read payload" ++ [10]⟩, world) ∧
      (request.body = [] → (request.Read (2 * 1024)).1 = 0) := by
  constructor
  · unfold Server.userModelMetricHandle
    have hc : ((request.Read (2 * 1024)).2 ≠ ReadError.none ∧
        (request.Read (2 * 1024)).2 ≠ ReadError.EOF) ∨ (request.Read (2 * 1024)).1 = 0 := by
      rcases h with h | ⟨msg, h⟩
      · exact Or.inr h
      · left
        simp only [Request.Read, h]
        exact ⟨by simp, by simp⟩
    simp only [hc, if_true]
    rfl
  · intro hb
    simp [Request.Read, hb]

theorem userModelMetricHandle_read_failure_witness :
    Server.userModelMetricHandle sampleExternal ⟨ascii "s3cret", ascii "data"⟩
        ⟨⟨1735639200, 0, 0⟩, StatResult.notExist, none, none⟩ ⟨[], []⟩ ResponseWriter.fresh
        ⟨[], [], 0, ReadError.EOF⟩ =
        (⟨some 400, ascii "Failed to read payload" ++ [10]⟩, ⟨[], []⟩) ∧
      (([] : GoString) = [] → (Request.Read ⟨[], [], 0, ReadError.EOF⟩ (2 * 1024)).1 = 0) :=
  userModelMetricHandle_read_failure sampleExternal _ _ _ ⟨[], [], 0, ReadError.EOF⟩
    (Or.inl (by decide))

/-- C10. When the body is read and parsed successfully, the handler writes
neither a status nor a body: the response is the default 200 with an empty
body, and the world is whatever `saveUserModelMetrics` left, whether it
returned an error or not. -/
theorem userModelMetricHandle_success_response (ext : External) (s : Server) (env : Env)
    (world : World) (request : Request) (record : UserModelMetrics)
    (hread : (request.readErr = ReadError.none ∨ request.readErr = ReadError.EOF) ∧
      (request.Read (2 * 1024)).1 ≠ 0)
    (hparse : parseUserModelMetrics ext request.payload = Except.ok record) :
    s.userModelMetricHandle ext env world ResponseWriter.fresh request =
        (ResponseWriter.fresh, (s.saveUserModelMetrics env world record).1) ∧
      (s.userModelMetricHandle ext env world ResponseWriter.fresh request).1.finalStatus = 200 ∧
      (s.userModelMetricHandle ext env world ResponseWriter.fresh request).1.body = [] := by
  have hmain : s.userModelMetricHandle ext env world ResponseWriter.fresh request =
      (ResponseWriter.fresh, (s.saveUserModelMetrics env world record).1) := by
    unfold Server.userModelMetricHandle
    have hc : ¬ (((request.Read (2 * 1024)).2 ≠ ReadError.none ∧
        (request.Read (2 * 1024)).2 ≠ ReadError.EOF) ∨ (request.Read (2 * 1024)).1 = 0) := by
      rintro (⟨h1, h2⟩ | h)
      · rcases hread.1 with e | e
        · exact h1 (by simp [Request.Read, e])
        · exact h2 (by simp [Request.Read, e])
      · exact hread.2 h
    unfold Request.payload at hparse
    simp only [hc, if_false, hparse]
  rw [hmain]
  exact ⟨rfl, rfl, rfl⟩

/-- C10 at a concrete request: the same parsed body once with a working disk
and once with a failing write; the response is untouched both times, and the
second time `saveUserModelMetrics` returns the error and no file exists. -/
theorem userModelMetricHandle_success_response_witness :
    (Server.userModelMetricHandle sampleExternal ⟨[], ascii "data"⟩
        ⟨⟨1735639200, 0, 0⟩, StatResult.exists, none, some (ascii "disk full")⟩ ⟨[], []⟩
        ResponseWriter.fresh ⟨[], ascii "\x7b\"model\":\"m\"\x7d", 4096, ReadError.none⟩ =
        (ResponseWriter.fresh,
          (Server.saveUserModelMetrics ⟨[], ascii "data"⟩
            ⟨⟨1735639200, 0, 0⟩, StatResult.exists, none, some (ascii "disk full")⟩ ⟨[], []⟩
            ⟨Time.zero, ascii "m", [], [], (visibleMetrics sampleExternal).map (fun n => (n, 0))⟩).1)
      ∧ (Server.userModelMetricHandle sampleExternal ⟨[], ascii "data"⟩
        ⟨⟨1735639200, 0, 0⟩, StatResult.exists, none, some (ascii "disk full")⟩ ⟨[], []⟩
        ResponseWriter.fresh ⟨[], ascii "\x7b\"model\":\"m\"\x7d", 4096, ReadError.none⟩).1.finalStatus
          = 200
      ∧ (Server.userModelMetricHandle sampleExternal ⟨[], ascii "data"⟩
        ⟨⟨1735639200, 0, 0⟩, StatResult.exists, none, some (ascii "disk full")⟩ ⟨[], []⟩
        ResponseWriter.fresh ⟨[], ascii "\x7b\"model\":\"m\"\x7d", 4096, ReadError.none⟩).1.body = [])
      ∧ (Server.saveUserModelMetrics ⟨[], ascii "data"⟩
            ⟨⟨1735639200, 0, 0⟩, StatResult.exists, none, some (ascii "disk full")⟩ ⟨[], []⟩
            ⟨Time.zero, ascii "m", [], [], (visibleMetrics sampleExternal).map (fun n => (n, 0))⟩)
          = (⟨[], []⟩, some (ascii "disk full")) :=
  ⟨userModelMetricHandle_success_response sampleExternal ⟨[], ascii "data"⟩
    ⟨⟨1735639200, 0, 0⟩, StatResult.exists, none, some (ascii "disk full")⟩ ⟨[], []⟩
    ⟨[], ascii "\x7b\"model\":\"m\"\x7d", 4096, ReadError.none⟩ _ (by decide) (by rfl), by decide⟩

/-! ## Claims on `created_at` -/

/-- A member whose key selects no `created_at` leaves `CreatedAt` as it is. -/
theorem decodeMember_createdAt (ext : External) (st st1 : DecodeState) (m : GoString × JValue)
    (h : decodeMember ext st m = Except.ok st1)
    (hsel : ∀ key, unquote m.1 = some key → findField ext key ≠ some Field.CreatedAt) :
    st1.record.CreatedAt = st.record.CreatedAt := by
  unfold decodeMember at h
  cases hk : unquote m.1 with
  | none => rw [hk] at h; cases h
  | some key =>
    rw [hk] at h
    try dsimp only at h
    have hne := hsel key hk
    cases hf : findField ext key with
    | none =>
      rw [hf] at h
      simp only [Except.ok.injEq] at h
      rw [← h]
    | some f =>
      rw [hf] at h
      try dsimp only at h
      cases f with
      | CreatedAt => exact absurd hf hne
      | Model =>
        simp only [storeString] at h
        split at h
        · split at h
          · simp only [Except.ok.injEq] at h; rw [← h]
          · cases h
        · simp only [Except.ok.injEq] at h; rw [← h]
        · simp only [Except.ok.injEq] at h; rw [← h]
          unfold DecodeState.saveError
          split <;> rfl
      | UserId =>
        simp only [storeString] at h
        split at h
        · split at h
          · simp only [Except.ok.injEq] at h; rw [← h]
          · cases h
        · simp only [Except.ok.injEq] at h; rw [← h]
        · simp only [Except.ok.injEq] at h; rw [← h]
          unfold DecodeState.saveError
          split <;> rfl
      | UserName =>
        simp only [storeString] at h
        split at h
        · split at h
          · simp only [Except.ok.injEq] at h; rw [← h]
          · cases h
        · simp only [Except.ok.injEq] at h; rw [← h]
        · simp only [Except.ok.injEq] at h; rw [← h]
          unfold DecodeState.saveError
          split <;> rfl
      | Metric name =>
        simp only [Except.ok.injEq] at h
        rw [← h]
        unfold storeInt
        split
        · split
          · rfl
          · unfold DecodeState.saveError
            split <;> rfl
        · rfl
        · unfold DecodeState.saveError
          split <;> rfl

theorem decodeMembers_createdAt (ext : External) :
    ∀ (ms : List (GoString × JValue)) (st st1 : DecodeState),
      decodeMembers ext st ms = Except.ok st1 →
      (∀ m ∈ ms, ∀ key, unquote m.1 = some key → findField ext key ≠ some Field.CreatedAt) →
      st1.record.CreatedAt = st.record.CreatedAt := by
  intro ms
  induction ms with
  | nil =>
    intro st st1 h _
    simp only [decodeMembers, Except.ok.injEq] at h
    rw [h]
  | cons m rest ih =>
    intro st st1 h hsel
    simp only [decodeMembers] at h
    cases hm : decodeMember ext st m with
    | error e => rw [hm] at h; cases h
    | ok st2 =>
      rw [hm] at h
      rw [ih st2 st1 h (fun x hx => hsel x (List.mem_cons_of_mem _ hx)),
        decodeMember_createdAt ext st st2 m hm (hsel m (List.mem_cons_self _ _))]

/-- The world after a successful `saveUserModelMetrics`: the encoded record
is the newest file, under `outPath`, and its `created_at` is the rendering of
the record's `CreatedAt`. -/
theorem saveUserModelMetrics_created_at (s : Server) (env : Env) (world : World)
    (record : UserModelMetrics) (hsave : (s.saveUserModelMetrics env world record).2 = none) :
    ∃ doc, (s.saveUserModelMetrics env world record).1.files.head?
          = some (outPath s.dataPath env.now, doc) ∧
      jsonMarshal record = Except.ok doc ∧
      doc.get? (ascii "created_at") = some (OutValue.str record.CreatedAt.Format) := by
  cases hm : jsonMarshal record with
  | error e =>
    simp [Server.saveUserModelMetrics, hm] at hsave
  | ok doc =>
    refine ⟨doc, ?_, rfl, ?_⟩
    · cases hw : env.writeErr with
      | some e =>
        cases hmk : env.mkdirErr <;> by_cases hst : env.stat = StatResult.notExist <;>
          simp [Server.saveUserModelMetrics, hm, hw, hmk, hst] at hsave
      | none =>
        cases hmk : env.mkdirErr <;> by_cases hst : env.stat = StatResult.notExist <;>
          simp [Server.saveUserModelMetrics, hm, hw, hmk, hst] at hsave ⊢
    · unfold jsonMarshal at hm
      cases ht : record.CreatedAt.MarshalJSON with
      | error e => rw [ht] at hm; cases hm
      | ok ts =>
        rw [ht] at hm
        simp only [Except.ok.injEq] at hm
        have hts : ts = record.CreatedAt.Format := by
          simp only [Time.MarshalJSON] at ht
          split_ifs at ht
          simp only [Except.ok.injEq] at ht
          exact ht.symm
        rw [← hm, hts]
        simp [Document.get?]

/-- C3 (as amended). For every request whose body is read and parsed and whose
record is stored, the persisted `created_at` is the rendering of the
`created_at` decoded from the body, whatever the server's clock reads (the
clock only names the file), and it is the zero time `0001-01-01T00:00:00Z`
when no member of the body selects `created_at`. -/
theorem persisted_created_at (ext : External) (s : Server) (env : Env) (world : World)
    (request : Request) (record : UserModelMetrics)
    (hread : (request.readErr = ReadError.none ∨ request.readErr = ReadError.EOF) ∧
      (request.Read (2 * 1024)).1 ≠ 0)
    (hparse : parseUserModelMetrics ext request.payload = Except.ok record)
    (hsave : (s.saveUserModelMetrics env world record).2 = none) :
    (∃ doc, (s.userModelMetricHandle ext env world ResponseWriter.fresh request).2.files.head?
          = some (outPath s.dataPath env.now, doc) ∧
        doc.get? (ascii "created_at") = some (OutValue.str record.CreatedAt.Format)) ∧
      (∀ members, scanDocument request.payload = some (JValue.object, members) →
        (∀ m ∈ members, ∀ key, unquote m.1 = some key →
          findField ext key ≠ some Field.CreatedAt) →
        record.CreatedAt.Format = ascii "0001-01-01T00:00:00Z") := by
  constructor
  · have hmain : s.userModelMetricHandle ext env world ResponseWriter.fresh request =
        (ResponseWriter.fresh, (s.saveUserModelMetrics env world record).1) := by
      unfold Server.userModelMetricHandle
      have hc : ¬ (((request.Read (2 * 1024)).2 ≠ ReadError.none ∧
          (request.Read (2 * 1024)).2 ≠ ReadError.EOF) ∨ (request.Read (2 * 1024)).1 = 0) := by
        rintro (⟨h1, h2⟩ | h)
        · rcases hread.1 with e | e
          · exact h1 (by simp [Request.Read, e])
          · exact h2 (by simp [Request.Read, e])
        · exact hread.2 h
      unfold Request.payload at hparse
      simp only [hc, if_false, hparse]
    rw [hmain]
    obtain ⟨doc, h1, _, h3⟩ := saveUserModelMetrics_created_at s env world record hsave
    exact ⟨doc, h1, h3⟩
  · intro members hscan hsel
    unfold parseUserModelMetrics jsonUnmarshal at hparse
    rw [hscan] at hparse
    simp only at hparse
    cases hd : decodeMembers ext ⟨UserModelMetrics.zero ext, none⟩ members with
    | error e => rw [hd] at hparse; cases hparse
    | ok st =>
      rw [hd] at hparse
      simp only at hparse
      cases hs : st.savedError with
      | some e => rw [hs] at hparse; cases hparse
      | none =>
        rw [hs] at hparse
        simp only [Except.ok.injEq] at hparse
        have := decodeMembers_createdAt ext members _ st hd hsel
        rw [← hparse, this]
        show Time.zero.Format = ascii "0001-01-01T00:00:00Z"
        decide

theorem persisted_created_at_witness :
    (∃ doc, (Server.userModelMetricHandle sampleExternal ⟨[], ascii "data"⟩
          ⟨⟨1735639200, 0, 0⟩, StatResult.notExist, none, none⟩ ⟨[], []⟩ ResponseWriter.fresh
          ⟨[], ascii "\x7b\"model\":\"m\",\"created_at\":\"2020-01-01T00:00:00Z\"\x7d", 4096,
            ReadError.none⟩).2.files.head?
          = some (outPath (ascii "data") ⟨1735639200, 0, 0⟩, doc) ∧
        doc.get? (ascii "created_at") = some (OutValue.str
          (Time.Format ⟨1577836800, 0, 0⟩))) ∧
      (∀ members, scanDocument (Request.payload
          ⟨[], ascii "\x7b\"model\":\"m\",\"created_at\":\"2020-01-01T00:00:00Z\"\x7d", 4096,
            ReadError.none⟩) = some (JValue.object, members) →
        (∀ m ∈ members, ∀ key, unquote m.1 = some key →
          findField sampleExternal key ≠ some Field.CreatedAt) →
        Time.Format ⟨1577836800, 0, 0⟩ = ascii "0001-01-01T00:00:00Z") :=
  persisted_created_at sampleExternal ⟨[], ascii "data"⟩
    ⟨⟨1735639200, 0, 0⟩, StatResult.notExist, none, none⟩ ⟨[], []⟩
    ⟨[], ascii "\x7b\"model\":\"m\",\"created_at\":\"2020-01-01T00:00:00Z\"\x7d", 4096, ReadError.none⟩
    ⟨⟨1577836800, 0, 0⟩, ascii "m", [], [], (visibleMetrics sampleExternal).map (fun n => (n, 0))⟩
    (by decide) (by rfl) (by decide)

/-- C3 (counterexample). Two bodies that differ only in `created_at`, handled at
the same server time 2024-12-31T10:00:00Z, persist different `created_at`
values, `0001-01-01T00:00:00Z` and `2020-01-01T00:00:00Z`, neither of which is
the server time. -/
theorem created_at_from_request_counterexample :
    (Server.userModelMetricHandle sampleExternal ⟨[], ascii "data"⟩
        ⟨⟨1735639200, 0, 0⟩, StatResult.notExist, none, none⟩ ⟨[], []⟩ ResponseWriter.fresh
        ⟨[], ascii "\x7b\"model\":\"m\"\x7d", 4096, ReadError.none⟩).2.files
      = [(ascii "data/UserModelMetrics/2025-1/2024-12-31T10:00:00Z.json",
          [(ascii "created_at", OutValue.str (ascii "0001-01-01T00:00:00Z")),
           (ascii "model", OutValue.str (ascii "m"))])] ∧
    (Server.userModelMetricHandle sampleExternal ⟨[], ascii "data"⟩
        ⟨⟨1735639200, 0, 0⟩, StatResult.notExist, none, none⟩ ⟨[], []⟩ ResponseWriter.fresh
        ⟨[], ascii "\x7b\"model\":\"m\",\"created_at\":\"2020-01-01T00:00:00Z\"\x7d", 4096,
          ReadError.none⟩).2.files
      = [(ascii "data/UserModelMetrics/2025-1/2024-12-31T10:00:00Z.json",
          [(ascii "created_at", OutValue.str (ascii "2020-01-01T00:00:00Z")),
           (ascii "model", OutValue.str (ascii "m"))])] ∧
    Time.Format ⟨1735639200, 0, 0⟩ = ascii "2024-12-31T10:00:00Z" := by
  decide

/-! ## Strict RFC 3339 times can be serialised -/

theorem findField_created_at (ext : External) :
    findField ext (ascii "created_at") = some Field.CreatedAt := rfl

end Webhook
